import Mathlib

/-!
Verification of the SEARCH/REPLACE patch engine of the clicode repository.

The definitions below are a shallow embedding of
`src/clicode/security/advanced_patch_system.py` (the fuzzy patch system)
and of the strict `replace_in_file` tool in `src/src/tools/file_tools.py`.
Python strings are modelled as Lean `String`; Python `List[str]` as
`List String`; the `difflib.SequenceMatcher.ratio()` similarity score is
modelled exactly (as a rational number) including the autojunk heuristic.
Error-message strings of the source are modelled as inductive constructors,
one constructor per distinct format string, carrying the interpolated
values as payloads.
-/

namespace Clicode

/-- Decidable equality for `Except`, used to evaluate parser results on
concrete inputs. -/
instance {ε α : Type} [DecidableEq ε] [DecidableEq α] : DecidableEq (Except ε α)
  | .error e, .error f =>
    if h : e = f then isTrue (by rw [h])
    else isFalse (fun c => h (Except.error.inj c))
  | .error _, .ok _ => isFalse (fun c => Except.noConfusion c)
  | .ok _, .error _ => isFalse (fun c => Except.noConfusion c)
  | .ok a, .ok b =>
    if h : a = b then isTrue (by rw [h])
    else isFalse (fun c => h (Except.ok.inj c))

/-- The exact set of code points for which the CPython `str.isspace` /
`str.strip` whitespace table (`Py_UNICODE_ISSPACE`) returns true. -/
def isPySpace (c : Char) : Bool :=
  let n := c.toNat
  (0x09 ≤ n && n ≤ 0x0D) || (0x1C ≤ n && n ≤ 0x1F) || n = 0x20 ||
  n = 0x85 || n = 0xA0 || n = 0x1680 || (0x2000 ≤ n && n ≤ 0x200A) ||
  n = 0x2028 || n = 0x2029 || n = 0x202F || n = 0x205F || n = 0x3000

/-- Characters that terminate a line for the CPython `str.splitlines`
(`\r\n` being treated as a single terminator by the caller). -/
def isLineBoundary (c : Char) : Bool :=
  let n := c.toNat
  n = 0x0A || n = 0x0D || n = 0x0B || n = 0x0C ||
  n = 0x1C || n = 0x1D || n = 0x1E || n = 0x85 || n = 0x2028 || n = 0x2029

/-- Python `str.strip()` on a character list: drop leading and trailing
whitespace. -/
def stripChars (l : List Char) : List Char :=
  ((l.dropWhile isPySpace).reverse.dropWhile isPySpace).reverse

/-- Python `str.strip()`. -/
def pyStrip (s : String) : String :=
  String.mk (stripChars s.data)

/-- Python `str.split("\n")` on a character list: split at every newline,
keeping empty segments; the result is always non-empty. -/
def splitNlCh : List Char → List (List Char)
  | [] => [[]]
  | c :: cs =>
    if c = '\n' then [] :: splitNlCh cs
    else
      match splitNlCh cs with
      | [] => [[c]]
      | h :: t => (c :: h) :: t

/-- Python `str.split("\n")`. -/
def pySplitNl (s : String) : List String :=
  (splitNlCh s.data).map String.mk

/-- Python `"\n".join(...)` on character lists. -/
def joinNlCh : List (List Char) → List Char
  | [] => []
  | [x] => x
  | x :: xs => x ++ '\n' :: joinNlCh xs

/-- Python `"\n".join(lines)`. -/
def joinNl (ls : List String) : String :=
  String.mk (joinNlCh (ls.map String.data))

/-- Python `str.splitlines()` worker: `acc` holds the current line in
reverse; `lastCR` records that the previous character was a `\r` whose
line was already emitted, so that a following `\n` is consumed silently
(`\r\n` is a single terminator); a trailing line without terminator is
still emitted, but no empty final line is produced when the text ends
with a terminator. -/
def splitlinesGo : List Char → List Char → Bool → List (List Char)
  | [], acc, _ => if acc.isEmpty then [] else [acc.reverse]
  | c :: cs, acc, lastCR =>
    if lastCR && c = '\n' then splitlinesGo cs acc false
    else if c = '\r' then acc.reverse :: splitlinesGo cs [] true
    else if isLineBoundary c then acc.reverse :: splitlinesGo cs [] false
    else splitlinesGo cs (c :: acc) false

/-- Python `str.splitlines()`. -/
def pySplitlines (s : String) : List String :=
  (splitlinesGo s.data [] false).map String.mk

/-- Is `p` a leading segment of `l`? Used to model Python substring
operations. -/
def beginsWith : List Char → List Char → Bool
  | [], _ => true
  | _ :: _, [] => false
  | p :: ps, c :: cs => p = c && beginsWith ps cs

/-- Python `str.startswith(p)`. -/
def pyStartsWith (s p : String) : Bool :=
  beginsWith p.data s.data

/-- Python substring containment `needle in hay` on character lists. -/
def hasSubCh (hay needle : List Char) : Bool :=
  beginsWith needle hay ||
    match hay with
    | [] => false
    | _ :: t => hasSubCh t needle

/-- Python `needle in hay` for strings. -/
def hasSubStr (hay needle : String) : Bool :=
  hasSubCh hay.data needle.data

/-- Python `hay.replace(old, new, 1)` on character lists: replace the
leftmost occurrence of `old` (insert at the front when `old` is empty). -/
def replFirstCh (hay old new : List Char) : List Char :=
  if beginsWith old hay then new ++ hay.drop old.length
  else
    match hay with
    | [] => []
    | h :: t => h :: replFirstCh t old new

/-- Python `hay.replace(old, new, 1)` for strings. -/
def replFirstStr (hay old new : String) : String :=
  String.mk (replFirstCh hay.data old.data new.data)

/-- Python slice bound: the effective index of `a[:k]` / `a[k:]` for an
`int` index `k` on a list of length `len` (negative indices count from
the end, out-of-range indices clamp). -/
def pyIdx (len : Nat) (k : Int) : Nat :=
  if k < 0 then len - (-k).toNat else min k.toNat len

/-- Python `a[:k]` with an `int` bound. -/
def pyTake (l : List String) (k : Int) : List String :=
  l.take (pyIdx l.length k)

/-- Python `a[k:]` with an `int` bound. -/
def pyDrop (l : List String) (k : Int) : List String :=
  l.drop (pyIdx l.length k)

/-! ### difflib.SequenceMatcher, specialised to the call
`SequenceMatcher(None, search_lines, file_segment).ratio()` used by
`find_best_match`: `a` and `b` are lists of lines, `isjunk` is `None`
(so the junk set is empty and the junk-extension loops of
`find_longest_match` never run). -/

/-- Indices at which `x` occurs in `b`, in ascending order (the entry of
`x` in the `b2j` mapping before the autojunk purge). -/
def positionsOf (b : List String) (x : String) : List Nat :=
  (b.enum.filter (fun p => p.2 = x)).map (fun p => p.1)

/-- The `b2j` mapping of `SequenceMatcher`: occurrence positions of `x`
in `b`, with popular elements purged when `len(b) >= 200` (the autojunk
heuristic, on by default). -/
def b2j (b : List String) (x : String) : List Nat :=
  let ps := positionsOf b x
  if 200 ≤ b.length ∧ b.length / 100 + 1 < ps.length then [] else ps

/-- State of the main loop of `find_longest_match`: `j2len` maps a `b`
index to the length of the run of matches ending there at the current
`a` index, and `(besti, bestj, bestsize)` is the best block found. -/
structure FlmState where
  j2len : Nat → Nat
  besti : Nat
  bestj : Nat
  bestsize : Nat

/-- One iteration (one `a` index `i`) of the main loop of
`find_longest_match`. -/
def flmStep (a b : List String) (blo bhi : Nat) (st : FlmState) (i : Nat) : FlmState :=
  let js := (b2j b (a.getD i "")).filter (fun j => blo ≤ j && j < bhi)
  let res := js.foldl
    (fun (acc : (Nat → Nat) × Nat × Nat × Nat) j =>
      let k := (if j = 0 then 0 else st.j2len (j - 1)) + 1
      let nj : Nat → Nat := fun j2 => if j2 = j then k else acc.1 j2
      if acc.2.2.2 < k then (nj, i + 1 - k, j + 1 - k, k)
      else (nj, acc.2.1, acc.2.2.1, acc.2.2.2))
    ((fun _ => 0), st.besti, st.bestj, st.bestsize)
  ⟨res.1, res.2.1, res.2.2.1, res.2.2.2⟩

/-- The main loop of `find_longest_match` over `a` indices
`alo, ..., ahi - 1`. -/
def flmMain (a b : List String) (alo ahi blo bhi : Nat) : FlmState :=
  (List.range' alo (ahi - alo)).foldl (flmStep a b blo bhi) ⟨fun _ => 0, alo, blo, 0⟩

/-- The backward extension loop of `find_longest_match` (the junk set is
empty here, so the only condition is equality of the adjacent elements).
`fuel` bounds the iteration count; it is instantiated so the loop can
never exhaust it. -/
def extendBack (a b : List String) (alo blo : Nat) : Nat → Nat × Nat × Nat → Nat × Nat × Nat
  | 0, st => st
  | fuel + 1, (bi, bj, bs) =>
    if alo < bi ∧ blo < bj ∧ a.getD (bi - 1) "" = b.getD (bj - 1) "" then
      extendBack a b alo blo fuel (bi - 1, bj - 1, bs + 1)
    else (bi, bj, bs)

/-- The forward extension loop of `find_longest_match`. -/
def extendFwd (a b : List String) (ahi bhi : Nat) : Nat → Nat × Nat × Nat → Nat × Nat × Nat
  | 0, st => st
  | fuel + 1, (bi, bj, bs) =>
    if bi + bs < ahi ∧ bj + bs < bhi ∧ a.getD (bi + bs) "" = b.getD (bj + bs) "" then
      extendFwd a b ahi bhi fuel (bi, bj, bs + 1)
    else (bi, bj, bs)

/-- `SequenceMatcher.find_longest_match(alo, ahi, blo, bhi)` with an
empty junk set: main loop, then the two extension loops (the two
junk-extension loops are no-ops since `isjunk` is `None`). -/
def findLongestMatch (a b : List String) (alo ahi blo bhi : Nat) : Nat × Nat × Nat :=
  let st := flmMain a b alo ahi blo bhi
  let t1 := extendBack a b alo blo st.besti (st.besti, st.bestj, st.bestsize)
  extendFwd a b ahi bhi (ahi + 1) t1

/-- Total size of the matching blocks of `get_matching_blocks` restricted
to the range `[alo, ahi) x [blo, bhi)`: find the longest match, recurse on
the pieces before and after it. The queue order and the final
sort-and-merge of the Python implementation do not affect this total.
`fuel` bounds the recursion depth; it is instantiated large enough that
it can never be exhausted, since each recursive call strictly shrinks
`ahi - alo`. -/
def matchingSizes (a b : List String) : Nat → Nat → Nat → Nat → Nat → Nat
  | 0, _, _, _, _ => 0
  | fuel + 1, alo, ahi, blo, bhi =>
    let r := findLongestMatch a b alo ahi blo bhi
    let i := r.1
    let j := r.2.1
    let k := r.2.2
    if k = 0 then 0
    else
      (if alo < i ∧ blo < j then matchingSizes a b fuel alo i blo j else 0) + k +
      (if i + k < ahi ∧ j + k < bhi then matchingSizes a b fuel (i + k) ahi (j + k) bhi else 0)

/-- `SequenceMatcher(None, a, b).ratio()`: twice the number of matched
elements over the total length, and `1.0` for two empty sequences. The
Python float `2.0 * matches / length` is modelled as the exact rational. -/
def smRatio (a b : List String) : ℚ :=
  let la := a.length
  let lb := b.length
  if la + lb = 0 then 1
  else mkRat (2 * (matchingSizes a b (la + lb + 1) 0 la 0 lb) : Int) (la + lb)

/-! ### Data model of `advanced_patch_system.py` -/

/-- `PatchAction`: types of patch actions. -/
inductive PatchAction where
  | ADD
  | UPDATE
  | DELETE
  | MOVE
deriving DecidableEq, Repr

/-- `Chunk`: a chunk of changes in a file. `orig_index` is the line index
in the original file (a Python `int`, so modelled as `Int`); the two
context fields default to empty as in `__post_init__`. -/
structure Chunk where
  orig_index : Int
  del_lines : List String
  ins_lines : List String
  context_before : List String := []
  context_after : List String := []
deriving DecidableEq, Repr

/-- `FileChange`: a change to a file. -/
structure FileChange where
  action : PatchAction
  path : String
  chunks : List Chunk := []
  new_content : Option String := none
  move_to : Option String := none
deriving DecidableEq, Repr

/-- The distinct error-message strings `apply_chunk` can produce, one
constructor per format string, carrying the interpolated values:
`insertBeyond p` is `"Insert point {p} beyond file length"`,
`notFound` is `"Could not find matching lines to replace"`, and
`lowConfidence c` is
`"Low confidence match ({c:.2f}) - manual review required"` (the payload
is the exact confidence; the Python message prints it with two
decimals). -/
inductive ChunkErr where
  | insertBeyond (point : Int)
  | notFound
  | lowConfidence (confidence : ℚ)
deriving DecidableEq, Repr

/-- `AdvancedPatchSystem.find_best_match`: exact pass over all windows of
the search length (first window whose joined text equals the joined
search text wins, confidence 1.0), then a fuzzy pass tracking the first
maximum `SequenceMatcher` ratio; `(-1, 0.0)` when the search is empty or
nothing scores above zero. The unused `start_hint` parameter is omitted. -/
def find_best_match (file_lines search_lines : List String) : Int × ℚ :=
  if search_lines.isEmpty then (-1, 0)
  else
    match (List.range (file_lines.length + 1 - search_lines.length)).find?
        (fun i => joinNl ((file_lines.drop i).take search_lines.length) = joinNl search_lines) with
    | some i => ((i : Int), 1)
    | none =>
      (List.range (file_lines.length + 1 - search_lines.length)).foldl
        (fun (best : Int × ℚ) i =>
          let score := smRatio search_lines ((file_lines.drop i).take search_lines.length)
          if best.2 < score then ((i : Int), score) else best)
        (-1, 0)

/-- `AdvancedPatchSystem.apply_chunk`: returns the (possibly modified)
line buffer and `none` on success or the error on failure. The Python
function returns `(lines, success, message)` with `success = True` iff
`message = ""`; the redundant boolean is dropped. The acceptance
threshold is `0.8`. -/
def apply_chunk (file_lines : List String) (c : Chunk) : List String × Option ChunkErr :=
  if c.del_lines.isEmpty then
    if (file_lines.length : Int) < c.orig_index then
      (file_lines, some (.insertBeyond c.orig_index))
    else
      (pyTake file_lines c.orig_index ++ c.ins_lines ++ pyDrop file_lines c.orig_index, none)
  else
    let r := find_best_match file_lines c.del_lines
    if r.1 = -1 then (file_lines, some .notFound)
    else if r.2 < mkRat 4 5 then (file_lines, some (.lowConfidence r.2))
    else
      let m := r.1.toNat
      (file_lines.take m ++ c.ins_lines ++ file_lines.drop (m + c.del_lines.length), none)

/-- Stable insertion used to model Python `sorted(chunks, key=lambda c:
c.orig_index)` (Python sort is stable; this insertion keeps earlier
elements first among equal keys). -/
def insertSorted (c : Chunk) : List Chunk → List Chunk
  | [] => [c]
  | d :: ds => if c.orig_index ≤ d.orig_index then c :: d :: ds else d :: insertSorted c ds

/-- `sorted(change.chunks, key=lambda c: c.orig_index)`. -/
def sortChunks (l : List Chunk) : List Chunk :=
  l.foldr insertSorted []

/-- The chunk-application loop of `_apply_update_file`: thread the line
buffer and the running `offset` through the sorted chunks, adjusting each
chunk by the offset before applying it; abort at the first failure. -/
def goApply : List String → Int → List Chunk → Except ChunkErr (List String)
  | lines, _, [] => .ok lines
  | lines, offset, c :: rest =>
    match apply_chunk lines { c with orig_index := c.orig_index + offset } with
    | (l2, none) =>
      goApply l2 (offset + (c.ins_lines.length : Int) - (c.del_lines.length : Int)) rest
    | (_, some e) => .error e

/-- The in-memory part of `_apply_update_file`: apply all chunks (sorted
by `orig_index`, starting from offset 0) to the line buffer. -/
def applyUpdateChunks (lines : List String) (chunks : List Chunk) : Except ChunkErr (List String) :=
  goApply lines 0 (sortChunks chunks)

/-- Per-change failure reasons of `_apply_update_file`:
`notExist` is `"File does not exist: {path}"`, `chunkFailed e` is the
message of the failing chunk (recorded by `add_failure`). -/
inductive UpdFail where
  | notExist
  | chunkFailed (e : ChunkErr)
deriving DecidableEq, Repr

/-- `_apply_update_file` over a single-file disk modelled as
`Option String` (the content of the target path, `none` when the file
does not exist): read the file with `splitlines()`, apply the chunks,
and on full success write back `"\n".join(modified_lines)`; on failure
the disk is untouched. Returns `(success, failure reason)` and the new
disk state. -/
def applyUpdateFileM (file : Option String) (chunks : List Chunk) :
    (Bool × Option UpdFail) × Option String :=
  match file with
  | none => ((false, some .notExist), none)
  | some content =>
    match applyUpdateChunks (pySplitlines content) chunks with
    | .error e => ((false, some (.chunkFailed e)), some content)
    | .ok ls => ((true, none), some (joinNl ls))

/-! ### The SEARCH/REPLACE block parsers

Both `AdvancedPatchSystem.parse_search_replace_block` and the inline
parser of `replace_in_file` scan `diff_text.strip().split("\n")` with
one index, collecting search lines until a line strips to `=======` and
replace lines until a line strips to `>>>>>>> REPLACE`. They differ only
in the start-marker test: the advanced parser uses
`line.strip().startswith("<<<<<<< SEARCH")`, the strict tool uses
`line.strip() == "<<<<<<< SEARCH"`. The index-based while loop is
modelled as a mode machine consuming the line list. -/

/-- Structural parse errors, one constructor per distinct message:
the advanced parser raises
`"Invalid SEARCH/REPLACE block: missing '=======' separator"` /
`"Invalid SEARCH/REPLACE block: missing '>>>>>>> REPLACE' end"`, the
strict tool returns
`"Error: Malformed diff - missing ======= separator"` /
`"Error: Malformed diff - missing >>>>>>> REPLACE marker"`. -/
inductive ParseErr where
  | missingSeparator
  | missingEnd
deriving DecidableEq, Repr

/-- Parser mode: outside any block, collecting search lines, or
collecting replace lines. -/
inductive PMode where
  | top
  | search (sl : List String)
  | repl (sl rl : List String)
deriving DecidableEq, Repr

/-- The shared block-scanning loop, parameterised by the start-marker
test `isStart` (applied to the stripped line). Produces the list of
`(search_lines, replace_lines)` pairs in source order, or the first
structural error. -/
def srGo (isStart : String → Bool) : PMode → List String → Except ParseErr (List (List String × List String))
  | .top, [] => .ok []
  | .search _, [] => .error .missingSeparator
  | .repl _ _, [] => .error .missingEnd
  | .top, l :: rest =>
    if isStart (pyStrip l) then srGo isStart (.search []) rest
    else srGo isStart .top rest
  | .search sl, l :: rest =>
    if pyStrip l = "=======" then srGo isStart (.repl sl []) rest
    else srGo isStart (.search (sl ++ [l])) rest
  | .repl sl rl, l :: rest =>
    if pyStrip l = ">>>>>>> REPLACE" then
      match srGo isStart .top rest with
      | .ok ps => .ok ((sl, rl) :: ps)
      | .error e => .error e
    else srGo isStart (.repl sl (rl ++ [l])) rest

/-- Start-marker test of the advanced parser. -/
def advStart (s : String) : Bool :=
  pyStartsWith s "<<<<<<< SEARCH"

/-- Start-marker test of the strict `replace_in_file` parser. -/
def strictStart (s : String) : Bool :=
  s = "<<<<<<< SEARCH"

/-- The `FileChange` built by `parse_search_replace_block` for one block:
action UPDATE, empty path, a single chunk at `orig_index` 0. -/
def mkParsedChange (p : List String × List String) : FileChange :=
  { action := .UPDATE, path := "",
    chunks := [{ orig_index := 0, del_lines := p.1, ins_lines := p.2 }] }

/-- `AdvancedPatchSystem.parse_search_replace_block` (the `ValueError`
raises are modelled as `Except.error`). -/
def parse_search_replace_block (diff_text : String) : Except ParseErr (List FileChange) :=
  (srGo advStart .top (pySplitNl (pyStrip diff_text))).map (fun ps => ps.map mkParsedChange)

/-- The block-parsing phase of the strict `replace_in_file` tool; each
block is reduced to its joined `(search_text, replace_text)`. -/
def parseBlocksStrict (diff : String) : Except ParseErr (List (String × String)) :=
  (srGo strictStart .top (pySplitNl (pyStrip diff))).map
    (fun ps => ps.map (fun p => (joinNl p.1, joinNl p.2)))

/-! ### Safety validator and top-level patch entry point -/

/-- Advisory warnings of `validate_patch_safety`, one constructor per
format string: `"Deleting file: {path}"`,
`"Large deletion in {path}: {n} lines"`,
`"Large insertion in {path}: {n} lines"`. -/
inductive Warning where
  | deleting (path : String)
  | largeDeletion (path : String) (n : Nat)
  | largeInsertion (path : String) (n : Nat)
deriving DecidableEq, Repr

/-- `AdvancedPatchSystem.validate_patch_safety`. -/
def validate_patch_safety (changes : List FileChange) : List Warning :=
  changes.flatMap (fun ch =>
    (if ch.action = .DELETE then [Warning.deleting ch.path] else []) ++
    (if ch.action = .UPDATE then
      (let dels := (ch.chunks.map (fun c => c.del_lines.length)).sum
       if 100 < dels then [Warning.largeDeletion ch.path dels] else []) ++
      (let inss := (ch.chunks.map (fun c => c.ins_lines.length)).sum
       if 100 < inss then [Warning.largeInsertion ch.path inss] else [])
    else []))

/-- `apply_file_change` restricted to the single-file disk model used by
`apply_search_replace_patch`: every change the block parser produces is
an UPDATE, so the other actions (which touch the real file system) are
reported through the catch-all failure constructor and are proved
unreachable from parsed input. Returns the failure reason (`none` on
success) and the new disk state. -/
inductive ChangeFail where
  | upd (f : UpdFail)
  | nonUpdate
deriving DecidableEq, Repr

/-- Apply one `FileChange` to the single-file disk. -/
def applyFileChangeM (file : Option String) (ch : FileChange) :
    Option ChangeFail × Option String :=
  match ch.action with
  | .UPDATE =>
    match applyUpdateFileM file ch.chunks with
    | ((true, _), f2) => (none, f2)
    | ((false, e), f2) => (some (.upd (e.getD .notExist)), f2)
  | _ => (some .nonUpdate, file)

/-- The per-change loop of `apply_search_replace_patch`: every change is
attempted (a failure does not stop the loop), successes and failures are
accumulated in order, and the disk state is threaded through. -/
def srpGo (file : Option String) :
    List FileChange → List FileChange × List (FileChange × ChangeFail) × Option String
  | [] => ([], [], file)
  | ch :: rest =>
    let r := applyFileChangeM file ch
    let t := srpGo r.2 rest
    match r.1 with
    | none => (ch :: t.1, t.2.1, t.2.2)
    | some e => (t.1, (ch, e) :: t.2.1, t.2.2)

/-- Top-level result mirroring `PatchResult` as built by
`apply_search_replace_patch`. -/
structure SRPOutcome where
  success : Bool
  applied : List FileChange
  failed : List (FileChange × ChangeFail)
  warnings : List Warning
deriving DecidableEq, Repr

/-- Parse-level failures of `apply_search_replace_patch`:
`processingError e` is `"Error processing patch: {e}"` (the caught
`ValueError`), `noBlocks` is `"No valid SEARCH/REPLACE blocks found"`. -/
inductive SRPErr where
  | processingError (e : ParseErr)
  | noBlocks
deriving DecidableEq, Repr

/-- `apply_search_replace_patch(file_path, diff_text)` over the
single-file disk model: parse the blocks, set the path on every change,
compute safety warnings, then apply each change in order. Returns either
the early error or the aggregated outcome, together with the final disk
state. -/
def apply_search_replace_patch (fp : String) (file : Option String) (diff_text : String) :
    Except SRPErr SRPOutcome × Option String :=
  match parse_search_replace_block diff_text with
  | .error e => (.error (.processingError e), file)
  | .ok [] => (.error .noBlocks, file)
  | .ok cs =>
    let cs2 := cs.map (fun ch => { ch with path := fp })
    let w := validate_patch_safety cs2
    let r := srpGo file cs2
    (.ok { success := r.2.1.isEmpty, applied := r.1, failed := r.2.1, warnings := w }, r.2.2)

/-! ### Delete changes over a real (multi-entry) file system model -/

/-- A file-system entry: a file with content, or a directory. -/
inductive FsNode where
  | file (content : String)
  | dir
deriving DecidableEq, Repr

/-- A flat file system: association list from path to node. -/
abbrev Fs : Type := List (String × FsNode)

/-- `os.path.exists`. -/
def fsExists (fs : Fs) (p : String) : Bool :=
  fs.any (fun e => e.1 = p)

/-- `os.remove`: removes a plain file; raises (returns `none`) on a
directory or a missing path. -/
def osRemove (fs : Fs) (p : String) : Option Fs :=
  match fs.find? (fun e => e.1 = p) with
  | some (_, .file _) => some (fs.filter (fun e => ¬ e.1 = p))
  | _ => none

/-- Failure messages of `_apply_delete_file`:
`notExist` is `"File does not exist: {path}"`, `removeFailed` is
`"Failed to delete file {path}: {exception}"` (the caught `os.remove`
error). -/
inductive DelFail where
  | notExist
  | removeFailed
deriving DecidableEq, Repr

/-- `AdvancedPatchSystem._apply_delete_file`: fail when the path does not
exist, otherwise call `os.remove` (there is no directory dispatch in the
source; `os.remove` on a directory raises and the exception is reported
as a failure). Returns `(success, failure reason)` and the new file
system. -/
def applyDeleteFileM (fs : Fs) (path : String) : (Bool × Option DelFail) × Fs :=
  if ¬ fsExists fs path then ((false, some .notExist), fs)
  else
    match osRemove fs path with
    | some fs2 => ((true, none), fs2)
    | none => ((false, some .removeFailed), fs)

/-- Modelled from the spec: the Delete behaviour asserted in section 4.4
of the specification, which dispatches to plain file removal or to
recursive directory removal according to the kind of the target (the
recursive removal deletes the directory entry and everything below it).
This definition follows the words of the spec and is compared with
`applyDeleteFileM`, the embedding of the source. -/
def specDeleteDispatch (fs : Fs) (path : String) : (Bool × Option DelFail) × Fs :=
  if ¬ fsExists fs path then ((false, some .notExist), fs)
  else
    match fs.find? (fun e => e.1 = path) with
    | some (_, .file _) => ((true, none), fs.filter (fun e => ¬ e.1 = path))
    | _ =>
      ((true, none),
        fs.filter (fun e => ¬ (e.1 = path ∨ pyStartsWith e.1 (path ++ "/"))))

/-! ### The strict `replace_in_file` tool -/

/-- Failure messages of `replace_in_file`, one constructor per distinct
message: `fileNotExist` is `"Error: The file '{path}' does not exist."`,
`malformed e` the two malformed-diff messages, `noBlocks` is
`"Error: No valid SEARCH/REPLACE blocks found in diff"`, and
`notFound s` is
`"Error: Could not find the exact text to replace:\n{s}"`. -/
inductive ReplaceErr where
  | fileNotExist
  | malformed (e : ParseErr)
  | noBlocks
  | notFound (searchText : String)
deriving DecidableEq, Repr

/-- The replacement loop of `replace_in_file`: each block requires its
search text to occur verbatim in the current whole-file content; the
first occurrence is replaced and the result is the text searched by the
next block; a miss aborts immediately. Returns the final content and the
number of changes made. -/
def applyBlocksStrict (content : String) : List (String × String) → Except ReplaceErr (String × Nat)
  | [] => .ok (content, 0)
  | b :: bs =>
    if hasSubStr content b.1 then
      match applyBlocksStrict (replFirstStr content b.1 b.2) bs with
      | .ok v => .ok (v.1, v.2 + 1)
      | .error e => .error e
    else .error (.notFound b.1)

/-- `replace_in_file(path, diff)` over the single-file disk model: check
existence, parse the blocks, apply them sequentially, and write the final
content back only when every block succeeded. Returns the message
(`ok` carries the number of changes of
`"Successfully applied {n} change(s) to '{path}'"`) and the new disk
state. -/
def replace_in_file (file : Option String) (diff : String) :
    Except ReplaceErr Nat × Option String :=
  match file with
  | none => (.error .fileNotExist, none)
  | some content =>
    match parseBlocksStrict diff with
    | .error e => (.error (.malformed e), some content)
    | .ok [] => (.error .noBlocks, some content)
    | .ok blocks =>
      match applyBlocksStrict content blocks with
      | .ok v => (.ok v.2, some v.1)
      | .error e => (.error e, some content)

/-- A string with no embedded newline character. -/
def noNl (s : String) : Prop := '\n' ∉ s.data

instance (s : String) : Decidable (noNl s) := by
  unfold noNl
  infer_instance

/-! ### Canonical well-formed block texts, used to state the parser
claims -/

/-- The line list of one well-formed SEARCH/REPLACE block. -/
def blockLines (p : List String × List String) : List String :=
  "<<<<<<< SEARCH" :: p.1 ++ "=======" :: p.2 ++ [">>>>>>> REPLACE"]

/-- The line list of a sequence of well-formed blocks, concatenated. -/
def blocksLines (ps : List (List String × List String)) : List String :=
  (ps.map blockLines).flatten

/-- Side conditions making a `(search_lines, replace_lines)` pair a
well-formed block body: lines contain no newline (they are single lines
of the diff text) and do not themselves strip to the marker that
terminates their section. -/
def goodPair (p : List String × List String) : Prop :=
  (∀ l ∈ p.1, noNl l ∧ pyStrip l ≠ "=======") ∧
  (∀ l ∈ p.2, noNl l ∧ pyStrip l ≠ ">>>>>>> REPLACE")

instance (p : List String × List String) : Decidable (goodPair p) := by
  unfold goodPair
  infer_instance

/-! ### Helper lemmas -/

lemma nlAppend_inj (x : List Char) :
    ∀ (y : List Char) (u v : List Char), '\n' ∉ x → '\n' ∉ y →
      x ++ '\n' :: u = y ++ '\n' :: v → x = y ∧ u = v := by
  induction x with
  | nil =>
    intro y u v _ hy h
    cases y with
    | nil => simpa using h
    | cons b ys =>
      simp only [List.nil_append, List.cons_append, List.cons.injEq] at h
      have hm : '\n' ∈ b :: ys := by rw [h.1]; exact List.mem_cons_self _ _
      exact absurd hm hy
  | cons a xs ih =>
    intro y u v hx hy h
    cases y with
    | nil =>
      simp only [List.cons_append, List.nil_append, List.cons.injEq] at h
      have hm : '\n' ∈ a :: xs := by rw [← h.1]; exact List.mem_cons_self _ _
      exact absurd hm hx
    | cons b ys =>
      simp only [List.cons_append, List.cons.injEq] at h
      have hx2 : '\n' ∉ xs := fun hm => hx (List.mem_cons_of_mem a hm)
      have hy2 : '\n' ∉ ys := fun hm => hy (List.mem_cons_of_mem b hm)
      obtain ⟨h1, h2⟩ := ih ys u v hx2 hy2 h.2
      exact ⟨by rw [h.1, h1], h2⟩

lemma joinNlCh_cons2 (x y : List Char) (ys : List (List Char)) :
    joinNlCh (x :: y :: ys) = x ++ '\n' :: joinNlCh (y :: ys) := rfl

lemma joinNlCh_inj (xs : List (List Char)) :
    ∀ (ys : List (List Char)), xs.length = ys.length →
      (∀ l ∈ xs, '\n' ∉ l) → (∀ l ∈ ys, '\n' ∉ l) →
      joinNlCh xs = joinNlCh ys → xs = ys := by
  induction xs with
  | nil =>
    intro ys hlen _ _ _
    cases ys with
    | nil => rfl
    | cons => simp at hlen
  | cons x xs ih =>
    intro ys hlen hx hy h
    cases ys with
    | nil => simp at hlen
    | cons y ys =>
      cases xs with
      | nil =>
        cases ys with
        | nil =>
          rw [show joinNlCh [x] = x from rfl, show joinNlCh [y] = y from rfl] at h
          rw [h]
        | cons => simp at hlen
      | cons x2 xs2 =>
        cases ys with
        | nil => simp at hlen
        | cons y2 ys2 =>
          rw [joinNlCh_cons2, joinNlCh_cons2] at h
          obtain ⟨h1, h2⟩ := nlAppend_inj x y _ _
            (hx x (List.mem_cons_self _ _)) (hy y (List.mem_cons_self _ _)) h
          have hrec := ih (y2 :: ys2) (by simpa using hlen)
            (fun l hl => hx l (List.mem_cons_of_mem _ hl))
            (fun l hl => hy l (List.mem_cons_of_mem _ hl)) h2
          rw [h1, hrec]

/-- Lines produced by `splitlinesGo` never contain a newline character. -/
lemma splitlinesGo_noNl (cs : List Char) :
    ∀ (acc : List Char) (b : Bool), '\n' ∉ acc → ∀ l ∈ splitlinesGo cs acc b, '\n' ∉ l := by
  induction cs with
  | nil =>
    intro acc b hacc l hl
    rw [splitlinesGo] at hl
    split at hl
    · simp at hl
    · simp only [List.mem_singleton] at hl
      rw [hl]
      exact fun hm => hacc (List.mem_reverse.mp hm)
  | cons c cs ih =>
    intro acc b hacc l hl
    rw [splitlinesGo] at hl
    split at hl
    · exact ih acc false hacc l hl
    · split at hl
      · rcases List.mem_cons.mp hl with h | h
        · rw [h]; exact fun hm => hacc (List.mem_reverse.mp hm)
        · exact ih [] true (by simp) l h
      · split at hl
        · rcases List.mem_cons.mp hl with h | h
          · rw [h]; exact fun hm => hacc (List.mem_reverse.mp hm)
          · exact ih [] false (by simp) l h
        · rename_i hnb _ _
          refine ih (c :: acc) false ?_ l hl
          intro hm
          rcases List.mem_cons.mp hm with h | h
          · exact absurd (by rw [← h]; rfl : isLineBoundary c = true) (by
              rename_i hlb
              exact hlb)
          · exact hacc h

/-- Every line of `pySplitlines content` is newline-free. -/
lemma pySplitlines_noNl (content : String) :
    ∀ l ∈ pySplitlines content, noNl l := by
  intro l hl
  unfold pySplitlines at hl
  obtain ⟨lc, hlc, rfl⟩ := List.mem_map.mp hl
  exact splitlinesGo_noNl content.data [] false (by simp) lc hlc

lemma strMkData (s : String) : String.mk s.data = s := rfl

lemma map_mk_data (l : List String) : l.map (String.mk ∘ String.data) = l := by
  induction l with
  | nil => rfl
  | cons x xs ih => rw [List.map_cons, ih]; rfl

lemma joinNl_data (ls : List String) : (joinNl ls).data = joinNlCh (ls.map String.data) := rfl

/-- `joinNl` is injective on equal-length lists of newline-free lines. -/
lemma joinNl_inj (xs ys : List String) (hlen : xs.length = ys.length)
    (hx : ∀ l ∈ xs, noNl l) (hy : ∀ l ∈ ys, noNl l)
    (h : joinNl xs = joinNl ys) : xs = ys := by
  have hd : joinNlCh (xs.map String.data) = joinNlCh (ys.map String.data) :=
    congrArg String.data h
  have hinj := joinNlCh_inj (xs.map String.data) (ys.map String.data)
    (by simp [hlen])
    (by intro l hl; obtain ⟨s, hs, rfl⟩ := List.mem_map.mp hl; exact hx s hs)
    (by intro l hl; obtain ⟨s, hs, rfl⟩ := List.mem_map.mp hl; exact hy s hs) hd
  have h2 : (xs.map String.data).map String.mk = (ys.map String.data).map String.mk := by
    rw [hinj]
  rw [List.map_map, List.map_map, map_mk_data, map_mk_data] at h2
  exact h2

lemma splitNlCh_ne_nil (cs : List Char) : splitNlCh cs ≠ [] := by
  cases cs with
  | nil => simp [splitNlCh]
  | cons c cs =>
    rw [splitNlCh]
    split
    · simp
    · split
      · simp
      · simp

/-- Splitting a newline-free character list yields that single line. -/
lemma splitNlCh_noNl (a : List Char) (ha : '\n' ∉ a) : splitNlCh a = [a] := by
  induction a with
  | nil => rfl
  | cons c cs ih =>
    rw [splitNlCh]
    have hc : ¬ c = '\n' := fun h => ha (by rw [h]; exact List.mem_cons_self _ _)
    rw [if_neg hc, ih (fun hm => ha (List.mem_cons_of_mem c hm))]

lemma splitNlCh_append_nl (a b : List Char) (ha : '\n' ∉ a) :
    splitNlCh (a ++ '\n' :: b) = a :: splitNlCh b := by
  induction a with
  | nil => simp [splitNlCh]
  | cons c cs ih =>
    have hc : ¬ c = '\n' := fun h => ha (by rw [h]; exact List.mem_cons_self _ _)
    rw [List.cons_append, splitNlCh, if_neg hc, ih (fun hm => ha (List.mem_cons_of_mem c hm))]

/-- `split("\n")` inverts `"\n".join` on a non-empty list of
newline-free lines (character-list level). -/
lemma splitNlCh_joinNlCh (xs : List (List Char)) (hne : xs ≠ [])
    (hx : ∀ l ∈ xs, '\n' ∉ l) : splitNlCh (joinNlCh xs) = xs := by
  induction xs with
  | nil => exact absurd rfl hne
  | cons x xs ih =>
    cases xs with
    | nil => exact splitNlCh_noNl x (hx x (List.mem_cons_self _ _))
    | cons y ys =>
      rw [joinNlCh_cons2, splitNlCh_append_nl x _ (hx x (List.mem_cons_self _ _)),
        ih (by simp) (fun l hl => hx l (List.mem_cons_of_mem x hl))]

/-- `pySplitNl` inverts `joinNl` on a non-empty list of newline-free
lines. -/
lemma pySplitNl_joinNl (ls : List String) (hne : ls ≠ [])
    (hnl : ∀ l ∈ ls, noNl l) : pySplitNl (joinNl ls) = ls := by
  unfold pySplitNl
  rw [joinNl_data, splitNlCh_joinNlCh (ls.map String.data) (by simpa using hne)
    (by intro l hl; obtain ⟨s, hs, rfl⟩ := List.mem_map.mp hl; exact hnl s hs)]
  rw [List.map_map, map_mk_data]

/-- `strip` does not change a list whose first and last characters are
not whitespace. -/
lemma stripChars_eq_self (l : List Char)
    (h1 : ∀ c, l.head? = some c → isPySpace c = false)
    (h2 : ∀ c, l.getLast? = some c → isPySpace c = false) :
    stripChars l = l := by
  unfold stripChars
  have e1 : l.dropWhile isPySpace = l := by
    cases l with
    | nil => rfl
    | cons c cs => rw [List.dropWhile_cons, if_neg (by simp [h1 c rfl])]
  rw [e1]
  have e2 : l.reverse.dropWhile isPySpace = l.reverse := by
    cases hr : l.reverse with
    | nil => rfl
    | cons c cs =>
      rw [List.dropWhile_cons, if_neg (by
        have : l.getLast? = some c := by rw [← List.head?_reverse, hr]; rfl
        simp [h2 c this])]
  rw [e2, List.reverse_reverse]

/-- `pyStrip` fixes a string whose edges are non-whitespace. -/
lemma pyStrip_eq_self (s : String)
    (h1 : ∀ c, s.data.head? = some c → isPySpace c = false)
    (h2 : ∀ c, s.data.getLast? = some c → isPySpace c = false) :
    pyStrip s = s := by
  unfold pyStrip
  rw [stripChars_eq_self s.data h1 h2, strMkData]

/-- `find?` over `range n` returns the least index satisfying the
predicate. -/
lemma range_find?_eq_some {p : Nat → Bool} {n i : Nat} (hi : i < n) (hp : p i = true)
    (hmin : ∀ j, j < i → p j = false) : (List.range n).find? p = some i := by
  induction n with
  | zero => exact absurd hi (Nat.not_lt_zero i)
  | succ n ih =>
    rw [List.range_succ, List.find?_append]
    rcases Nat.lt_succ_iff_lt_or_eq.mp hi with h | h
    · rw [ih h]; rfl
    · subst h
      have hnone : (List.range i).find? p = none := by
        rw [List.find?_eq_none]
        intro x hx
        simp [hmin x (List.mem_range.mp hx)]
      rw [hnone]
      simp [List.find?, hp]

/-- The window of length `mid.length` at offset `pre.length` of
`pre ++ mid ++ post` is `mid`. -/
lemma window_at (pre mid post : List String) :
    (((pre ++ mid ++ post).drop pre.length).take mid.length) = mid := by
  rw [List.append_assoc, List.drop_left, List.take_left]

/-- A list equals the surroundings of any full window. -/
lemma decomp_of_window (fl sl : List String) (i : Nat)
    (hw : (fl.drop i).take sl.length = sl) :
    fl = fl.take i ++ sl ++ fl.drop (i + sl.length) := by
  have h1 : fl.drop i = sl ++ fl.drop (i + sl.length) := by
    conv_lhs => rw [← List.take_append_drop sl.length (fl.drop i)]
    rw [hw, List.drop_drop]
  conv_lhs => rw [← List.take_append_drop i fl]
  rw [h1, List.append_assoc]

/-- The exact pass of `find_best_match`: the first window (lowest index)
whose joined text equals the joined search text is returned with
confidence 1. -/
lemma find_best_match_exact (fl sl : List String) (hsl : sl ≠ [])
    (i0 : Nat) (hi0 : i0 < fl.length + 1 - sl.length)
    (heq : joinNl ((fl.drop i0).take sl.length) = joinNl sl)
    (hmin : ∀ j, j < i0 → joinNl ((fl.drop j).take sl.length) ≠ joinNl sl) :
    find_best_match fl sl = ((i0 : Int), 1) := by
  unfold find_best_match
  rw [if_neg (by simp [List.isEmpty_iff, hsl])]
  rw [range_find?_eq_some hi0 (by simp [heq]) (fun j hj => by simp [hmin j hj])]

/-- If some window is an exact (joined-text) match, `find_best_match`
returns an exact match: some window index with confidence 1. -/
lemma find_best_match_of_exact (fl sl : List String) (hsl : sl ≠ [])
    (j0 : Nat) (hj0 : j0 < fl.length + 1 - sl.length)
    (heq : joinNl ((fl.drop j0).take sl.length) = joinNl sl) :
    ∃ i0 : Nat, i0 < fl.length + 1 - sl.length ∧
      joinNl ((fl.drop i0).take sl.length) = joinNl sl ∧
      find_best_match fl sl = ((i0 : Int), 1) := by
  unfold find_best_match
  rw [if_neg (by simp [List.isEmpty_iff, hsl])]
  cases hfind : (List.range (fl.length + 1 - sl.length)).find?
      (fun i => joinNl ((fl.drop i).take sl.length) = joinNl sl) with
  | none =>
    exfalso
    have := List.find?_eq_none.mp hfind j0 (List.mem_range.mpr hj0)
    simp [heq] at this
  | some i0 =>
    refine ⟨i0, List.mem_range.mp (List.mem_of_find?_eq_some hfind), ?_, rfl⟩
    have := List.find?_some hfind
    simpa using this

/-- A replacement chunk whose search lines match exactly at `i0` is
spliced at `i0` regardless of its `orig_index`. -/
lemma apply_chunk_exact (fl : List String) (c : Chunk) (i0 : Nat)
    (hne : c.del_lines ≠ [])
    (hfind : find_best_match fl c.del_lines = ((i0 : Int), 1)) :
    apply_chunk fl c =
      (fl.take i0 ++ c.ins_lines ++ fl.drop (i0 + c.del_lines.length), none) := by
  unfold apply_chunk
  rw [if_neg (by simp [List.isEmpty_iff, hne]), hfind]
  rw [if_neg (by omega : ¬ ((i0 : Int) = -1))]
  rw [if_neg (by decide : ¬ ((1 : ℚ) < mkRat 4 5))]
  simp

/-! ### Claims -/

/-- Claim C4: exact-pass priority in the matcher. For every target line
sequence and non-empty `search_lines`, if some window of the search
length has joined text equal to the joined search text, the matcher
returns the lowest such window index with confidence exactly 1.0, and
this identical window is preferred over every non-identical window
regardless of scan order: the fuzzy pass is never consulted when an
exact window exists. -/
theorem claim_C4 (fl sl : List String) (hsl : sl ≠ [])
    (i0 : Nat) (hi0 : i0 < fl.length + 1 - sl.length)
    (heq : joinNl ((fl.drop i0).take sl.length) = joinNl sl)
    (hmin : ∀ j, j < i0 → joinNl ((fl.drop j).take sl.length) ≠ joinNl sl) :
    find_best_match fl sl = ((i0 : Int), 1) :=
  find_best_match_exact fl sl hsl i0 hi0 heq hmin

/-- Witness for C4: in `["a", "b", "a"]` the search `["a"]` matches
exactly at indices 0 and 2; the matcher returns the lowest index 0 with
confidence 1. -/
theorem claim_C4_witness :
    find_best_match ["a", "b", "a"] ["a"] = ((0 : Int), 1) :=
  claim_C4 ["a", "b", "a"] ["a"] (by decide) 0 (by decide) (by decide)
    (fun j hj => absurd hj (Nat.not_lt_zero j))

/-- Claim C1 (amended): round-trip on exact match, up to the line-join
normalisation performed by `_apply_update_file`. For every file whose
line sequence (as read by `splitlines()`) contains a contiguous slice
equal to a single-chunk Update's newline-free `search_lines`, applying
that Update succeeds and the resulting on-disk content is the
newline-join of the original line sequence with such a slice replaced by
`replace_lines` (the original trailing line terminator is dropped and
internal terminators are normalised to `"\n"`, so the result is not
byte-for-byte the original with the slice substituted). -/
theorem claim_C1 (content : String) (search repl : List String)
    (pre post : List String)
    (hdec : pySplitlines content = pre ++ search ++ post)
    (hne : search ≠ [])
    (hnl : ∀ s ∈ search, noNl s) :
    ∃ pre2 post2 : List String,
      pySplitlines content = pre2 ++ search ++ post2 ∧
      applyUpdateFileM (some content)
          [{ orig_index := 0, del_lines := search, ins_lines := repl }] =
        ((true, none), some (joinNl (pre2 ++ repl ++ post2))) := by
  have hnlAll : ∀ l ∈ pySplitlines content, noNl l := pySplitlines_noNl content
  have hlen : (pySplitlines content).length = pre.length + search.length + post.length := by
    rw [hdec]; simp; omega
  have hsp : 1 ≤ search.length := by
    cases search with
    | nil => exact absurd rfl hne
    | cons a l => simp
  have hj0 : pre.length < (pySplitlines content).length + 1 - search.length := by omega
  have hw0 : ((pySplitlines content).drop pre.length).take search.length = search := by
    rw [hdec]; exact window_at pre search post
  obtain ⟨i0, hi0, heq, hfind⟩ :=
    find_best_match_of_exact (pySplitlines content) search hne pre.length hj0 (by rw [hw0])
  have hwlen : (((pySplitlines content).drop i0).take search.length).length = search.length := by
    simp only [List.length_take, List.length_drop]
    omega
  have hwnl : ∀ l ∈ ((pySplitlines content).drop i0).take search.length, noNl l :=
    fun l hl => hnlAll l (List.mem_of_mem_drop (List.mem_of_mem_take hl))
  have hw : ((pySplitlines content).drop i0).take search.length = search :=
    joinNl_inj _ _ hwlen hwnl hnl heq
  have hdecomp := decomp_of_window (pySplitlines content) search i0 hw
  have hchunk := apply_chunk_exact (pySplitlines content)
    { orig_index := (0 : Int) + 0, del_lines := search, ins_lines := repl } i0 hne hfind
  have happ : applyUpdateChunks (pySplitlines content)
      [{ orig_index := 0, del_lines := search, ins_lines := repl }] =
      .ok ((pySplitlines content).take i0 ++ repl ++
        (pySplitlines content).drop (i0 + search.length)) := by
    show goApply (pySplitlines content) 0
        [{ orig_index := 0, del_lines := search, ins_lines := repl }] = _
    rw [goApply]
    rw [show ({ ({ orig_index := 0, del_lines := search, ins_lines := repl } : Chunk) with
        orig_index := ({ orig_index := 0, del_lines := search, ins_lines := repl } : Chunk).orig_index + 0 }) =
      ({ orig_index := (0 : Int) + 0, del_lines := search, ins_lines := repl } : Chunk) from rfl]
    rw [hchunk]
    rfl
  refine ⟨(pySplitlines content).take i0, (pySplitlines content).drop (i0 + search.length),
    hdecomp, ?_⟩
  show (match applyUpdateChunks (pySplitlines content)
      [{ orig_index := 0, del_lines := search, ins_lines := repl }] with
    | .error e => ((false, some (UpdFail.chunkFailed e)), some content)
    | .ok ls => ((true, none), some (joinNl ls))) = _
  rw [happ]

/-- Counterexample to C1 as stated: on the file
`"line1\nline2\nline3\n"` with SEARCH `line2` and REPLACE `lineTWO`, the
update succeeds but the on-disk result is `"line1\nlineTWO\nline3"`,
which is not the claimed `"line1\nlineTWO\nline3\n"`: the trailing
newline of the original file is lost, so the result is not the original
content with the slice replaced verbatim. -/
theorem claim_C1_counterexample :
    applyUpdateFileM (some "line1\nline2\nline3\n")
        [{ orig_index := 0, del_lines := ["line2"], ins_lines := ["lineTWO"] }] =
      ((true, none), some "line1\nlineTWO\nline3") ∧
    "line1\nlineTWO\nline3" ≠ "line1\nlineTWO\nline3\n" := by decide

/-- Witness for C1 (amended): the example scenario, both at the update
level (via the theorem) and through the top-level
`apply_search_replace_patch` entry point, which reports success, exactly
one applied change and zero warnings, with final content
`"line1\nlineTWO\nline3"`. -/
theorem claim_C1_witness :
    (∃ pre2 post2 : List String,
      pySplitlines "line1\nline2\nline3\n" = pre2 ++ ["line2"] ++ post2 ∧
      applyUpdateFileM (some "line1\nline2\nline3\n")
          [{ orig_index := 0, del_lines := ["line2"], ins_lines := ["lineTWO"] }] =
        ((true, none), some (joinNl (pre2 ++ ["lineTWO"] ++ post2)))) ∧
    apply_search_replace_patch "a.txt" (some "line1\nline2\nline3\n")
        "<<<<<<< SEARCH\nline2\n=======\nlineTWO\n>>>>>>> REPLACE" =
      (.ok { success := true,
             applied := [{ action := .UPDATE, path := "a.txt",
                           chunks := [{ orig_index := 0, del_lines := ["line2"],
                                        ins_lines := ["lineTWO"] }] }],
             failed := [], warnings := [] },
       some "line1\nlineTWO\nline3") :=
  ⟨claim_C1 "line1\nline2\nline3\n" ["line2"] ["lineTWO"] ["line1"] ["line3"]
    (by decide) (by decide) (by decide), by decide⟩

/-- Claim C2 (amended): the orchestrator keeps a running offset (inserted
minus deleted line count of prior chunks, in ascending `orig_index`
order) and adds it to each subsequent chunk's stated position before
invoking the chunk applier; the adjusted position is the splice point for
pure insertions, but for replacement chunks (non-empty `search_lines`)
the applier ignores the stated position entirely and locates the target
by scanning the whole buffer, so a second replacement chunk is applied
wherever its search lines best match, not at `p2 + delta`. -/
theorem claim_C2 :
    (∀ (lines : List String) (c1 c2 : Chunk) (l1 : List String),
      c1.orig_index ≤ c2.orig_index →
      apply_chunk lines { c1 with orig_index := c1.orig_index + 0 } = (l1, none) →
      applyUpdateChunks lines [c1, c2] =
        (match apply_chunk l1 { c2 with orig_index := c2.orig_index +
            ((c1.ins_lines.length : Int) - (c1.del_lines.length : Int)) } with
         | (l2, none) => .ok l2
         | (_, some e) => .error e)) ∧
    (∀ (lines : List String) (c : Chunk) (k : Int), c.del_lines ≠ [] →
      apply_chunk lines { c with orig_index := k } = apply_chunk lines c) := by
  constructor
  · intro lines c1 c2 l1 h12 h1
    have hsort : sortChunks [c1, c2] = [c1, c2] := by
      unfold sortChunks
      rw [List.foldr_cons, List.foldr_cons, List.foldr_nil]
      rw [show insertSorted c2 [] = [c2] from rfl]
      unfold insertSorted
      rw [if_pos h12]
    have harith : (0 : Int) + (c1.ins_lines.length : Int) - (c1.del_lines.length : Int) =
        (c1.ins_lines.length : Int) - (c1.del_lines.length : Int) := by ring
    unfold applyUpdateChunks
    rw [hsort]
    simp only [goApply]
    rw [h1, harith]
  · intro lines c k hne
    have hne2 : ¬ (c.del_lines.isEmpty = true) := by simp [List.isEmpty_iff, hne]
    unfold apply_chunk
    rw [if_neg hne2, if_neg hne2]

/-- Counterexample to C2 as stated: file `["a", "x", "T"]`, first chunk a
pure insertion at 0 of one line (`delta = +1`), second chunk a
replacement at stated original position `p2 = 2`; locating the second
chunk at `p2 + delta = 3` would produce `["N", "a", "x", "Y"]`, but the
code scans for the search lines and replaces at index 2, producing
`["N", "a", "Y", "T"]`. -/
theorem claim_C2_counterexample :
    applyUpdateChunks ["a", "x", "T"]
        [{ orig_index := 0, del_lines := [], ins_lines := ["N"] },
         { orig_index := 2, del_lines := ["x"], ins_lines := ["Y"] }] =
      .ok ["N", "a", "Y", "T"] ∧
    (Except.ok ["N", "a", "Y", "T"] : Except ChunkErr (List String)) ≠
      .ok ["N", "a", "x", "Y"] := by decide

/-- Witness for C2 (amended): the two-chunk update of the counterexample
follows the offset-adjusted two-step evaluation, and a replacement
chunk's result does not depend on its stated position. -/
theorem claim_C2_witness :
    (applyUpdateChunks ["a", "x", "T"]
        [{ orig_index := 0, del_lines := [], ins_lines := ["N"] },
         { orig_index := 2, del_lines := ["x"], ins_lines := ["Y"] }] =
      (match apply_chunk ["N", "a", "x", "T"]
          { ({ orig_index := 2, del_lines := ["x"], ins_lines := ["Y"] } : Chunk) with
            orig_index := ({ orig_index := 2, del_lines := ["x"], ins_lines := ["Y"] } : Chunk).orig_index +
              ((({ orig_index := 0, del_lines := [], ins_lines := ["N"] } : Chunk).ins_lines.length : Int) -
                (({ orig_index := 0, del_lines := [], ins_lines := ["N"] } : Chunk).del_lines.length : Int)) } with
       | (l2, none) => .ok l2
       | (_, some e) => .error e)) ∧
    apply_chunk ["a", "b"]
        { ({ orig_index := 1, del_lines := ["b"], ins_lines := ["Z"] } : Chunk) with
          orig_index := 99 } =
      apply_chunk ["a", "b"] { orig_index := 1, del_lines := ["b"], ins_lines := ["Z"] } :=
  ⟨claim_C2.1 ["a", "x", "T"]
      { orig_index := 0, del_lines := [], ins_lines := ["N"] }
      { orig_index := 2, del_lines := ["x"], ins_lines := ["Y"] }
      ["N", "a", "x", "T"] (by decide) (by decide),
   claim_C2.2 ["a", "b"] { orig_index := 1, del_lines := ["b"], ins_lines := ["Z"] } 99
      (by decide)⟩

/-- Claim C3 (amended): threshold enforcement. For a replacement chunk,
if the matcher reports a candidate (index not `-1`) with confidence
strictly below 0.8, the chunk fails with the low-confidence message
carrying that confidence value (a message distinct from the not-found
message), and the returned buffer is the input buffer unmodified; when
the matcher reports no candidate (index `-1`, which happens exactly when
every window scores 0), the chunk fails with the not-found message, the
buffer again unmodified. -/
theorem claim_C3 (fl : List String) (c : Chunk) (hne : c.del_lines ≠ []) :
    (∀ (i : Int) (conf : ℚ), find_best_match fl c.del_lines = (i, conf) → i ≠ -1 →
      conf < mkRat 4 5 → apply_chunk fl c = (fl, some (.lowConfidence conf))) ∧
    (∀ conf : ℚ, find_best_match fl c.del_lines = (-1, conf) →
      apply_chunk fl c = (fl, some .notFound)) := by
  have hne2 : ¬ (c.del_lines.isEmpty = true) := by simp [List.isEmpty_iff, hne]
  constructor
  · intro i conf hfind hi hconf
    unfold apply_chunk
    rw [if_neg hne2, hfind, if_neg hi, if_pos hconf]
  · intro conf hfind
    unfold apply_chunk
    rw [if_neg hne2, hfind, if_pos rfl]

/-- Counterexample to C3 as stated: in buffer `["a"]` with search
`["b"]`, the single window scores confidence 0 (strictly below 0.8), yet
the chunk fails with the not-found message, not with a low-confidence
message carrying the confidence value. -/
theorem claim_C3_counterexample :
    find_best_match ["a"] ["b"] = (-1, 0) ∧ (0 : ℚ) < mkRat 4 5 ∧
    apply_chunk ["a"] { orig_index := 0, del_lines := ["b"], ins_lines := ["c"] } =
      (["a"], some .notFound) ∧
    ChunkErr.notFound ≠ ChunkErr.lowConfidence 0 := by decide

/-- Witness for C3 (amended): `["hello", "there"]` against buffer
`["hello", "world"]` scores exactly 0.5; the chunk fails with the
low-confidence message carrying 0.5 and the buffer is returned
unmodified. -/
theorem claim_C3_witness :
    apply_chunk ["hello", "world"]
        { orig_index := 0, del_lines := ["hello", "there"], ins_lines := ["X"] } =
      (["hello", "world"], some (.lowConfidence (mkRat 1 2))) :=
  (claim_C3 ["hello", "world"]
      { orig_index := 0, del_lines := ["hello", "there"], ins_lines := ["X"] }
      (by decide)).1 0 (mkRat 1 2) (by decide) (by decide) (by decide)

/-- Claim C7: update atomicity on chunk failure. If a chunk of an Update
fails, the remaining chunks are never applied (the application loop
returns that chunk error regardless of what follows), and nothing is
written to disk: the on-disk content after a failed
`_apply_update_file` is exactly the content before it, the in-memory
modifications of earlier-succeeding chunks being discarded. -/
theorem claim_C7 :
    (∀ (lines : List String) (offset : Int) (c : Chunk) (rest : List Chunk)
        (l2 : List String) (e : ChunkErr),
      apply_chunk lines { c with orig_index := c.orig_index + offset } = (l2, some e) →
      goApply lines offset (c :: rest) = .error e) ∧
    (∀ (content : String) (chunks : List Chunk) (m : Option UpdFail) (f2 : Option String),
      applyUpdateFileM (some content) chunks = ((false, m), f2) → f2 = some content) := by
  constructor
  · intro lines offset c rest l2 e h
    simp only [goApply]
    rw [h]
  · intro content chunks m f2 h
    have h2 : (match applyUpdateChunks (pySplitlines content) chunks with
        | .error e => ((false, some (UpdFail.chunkFailed e)), some content)
        | .ok ls => ((true, none), some (joinNl ls))) = ((false, m), f2) := h
    cases happ : applyUpdateChunks (pySplitlines content) chunks with
    | error e =>
      rw [happ] at h2
      exact (congrArg Prod.snd h2).symm
    | ok ls =>
      rw [happ] at h2
      exact absurd (congrArg (fun p => p.1.1) h2) (by simp)

/-- Witness for C7: a failing first chunk aborts the update with the
not-found error no matter what chunks follow, and the disk content of a
failed update equals the original. -/
theorem claim_C7_witness :
    goApply ["a"] 0
      [{ orig_index := 0, del_lines := ["b"], ins_lines := ["c"] },
       { orig_index := 0, del_lines := ["a"], ins_lines := ["z"] }] = .error .notFound ∧
    (some "a" : Option String) = some "a" :=
  ⟨claim_C7.1 ["a"] 0 { orig_index := 0, del_lines := ["b"], ins_lines := ["c"] }
      [{ orig_index := 0, del_lines := ["a"], ins_lines := ["z"] }] ["a"] .notFound (by decide),
   claim_C7.2 "a" [{ orig_index := 0, del_lines := ["b"], ins_lines := ["c"] }]
      (some (.chunkFailed .notFound)) (some "a") (by decide)⟩

/-- Claim C9 (amended): Delete application fails when the path does not
exist; when the target is a plain file it is removed; but there is no
directory dispatch: on a directory, `os.remove` raises and the deletion
is reported as a failure with the file system unchanged (no recursive
directory removal). -/
theorem claim_C9 (fs : Fs) (path : String) :
    (¬ fsExists fs path → applyDeleteFileM fs path = ((false, some .notExist), fs)) ∧
    (∀ (p2 : String) (c : String), fs.find? (fun e => e.1 = path) = some (p2, .file c) →
      applyDeleteFileM fs path = ((true, none), fs.filter (fun e => ¬ e.1 = path))) ∧
    (∀ p2 : String, fs.find? (fun e => e.1 = path) = some (p2, .dir) →
      applyDeleteFileM fs path = ((false, some .removeFailed), fs)) := by
  refine ⟨fun hne => ?_, fun p2 c hfind => ?_, fun p2 hfind => ?_⟩
  · unfold applyDeleteFileM
    rw [if_pos hne]
  · have hex : fsExists fs path = true := by
      unfold fsExists
      rw [List.any_eq_true]
      have hm := List.mem_of_find?_eq_some hfind
      have hp := List.find?_some hfind
      exact ⟨(p2, .file c), hm, hp⟩
    unfold applyDeleteFileM osRemove
    rw [if_neg (by simp [hex]), hfind]
  · have hex : fsExists fs path = true := by
      unfold fsExists
      rw [List.any_eq_true]
      have hm := List.mem_of_find?_eq_some hfind
      have hp := List.find?_some hfind
      exact ⟨(p2, .dir), hm, hp⟩
    unfold applyDeleteFileM osRemove
    rw [if_neg (by simp [hex]), hfind]

/-- Counterexample to C9 as stated: deleting a directory entry does not
dispatch to recursive directory removal; the code fails with the caught
`os.remove` error and leaves the file system unchanged, whereas the
spec-modelled dispatch removes the directory and its contents. -/
theorem claim_C9_counterexample :
    applyDeleteFileM [("d", .dir), ("d/x", .file "1")] "d" =
      ((false, some .removeFailed), [("d", .dir), ("d/x", .file "1")]) ∧
    specDeleteDispatch [("d", .dir), ("d/x", .file "1")] "d" = ((true, none), []) ∧
    (((false, some DelFail.removeFailed), ([("d", .dir), ("d/x", FsNode.file "1")] : Fs)) ≠
      ((true, none), ([] : Fs))) := by decide

/-- Witness for C9 (amended): a missing path fails with the not-exist
message, and a plain file is removed. -/
theorem claim_C9_witness :
    applyDeleteFileM [] "q" = ((false, some .notExist), []) ∧
    applyDeleteFileM [("f", .file "x")] "f" =
      ((true, none), ([("f", FsNode.file "x")] : Fs).filter (fun e => ¬ e.1 = "f")) :=
  ⟨(claim_C9 [] "q").1 (by decide),
   (claim_C9 [("f", .file "x")] "f").2.1 "f" "x" (by decide)⟩

/-- Claim C10: parser-output invariant. Every `FileChange` produced by
`parse_search_replace_block` has action UPDATE, an empty path, and
exactly one chunk whose `orig_index` is 0; consequently the top-level
entry point applies each parsed block as a separate file change, the
final disk content being the left fold of the per-change applications
(each change re-reads the current content and re-writes it), so the
per-file offset accumulator never spans two parsed blocks. -/
theorem claim_C10 :
    (∀ (d : String) (cs : List FileChange), parse_search_replace_block d = .ok cs →
      ∀ ch ∈ cs, ch.action = .UPDATE ∧ ch.path = "" ∧
        ∃ sl rl, ch.chunks = [{ orig_index := 0, del_lines := sl, ins_lines := rl }]) ∧
    (∀ (fp d : String) (file : Option String) (cs : List FileChange),
      parse_search_replace_block d = .ok cs → cs ≠ [] →
      (apply_search_replace_patch fp file d).2 =
        (cs.map (fun ch => { ch with path := fp })).foldl
          (fun f ch => (applyFileChangeM f ch).2) file) := by
  constructor
  · intro d cs hparse ch hch
    unfold parse_search_replace_block at hparse
    cases hgo : srGo advStart .top (pySplitNl (pyStrip d)) with
    | error e => rw [hgo] at hparse; cases hparse
    | ok ps =>
      rw [hgo] at hparse
      have hcs : cs = ps.map mkParsedChange := by
        have := hparse
        simp only [Except.map] at this
        exact (Except.ok.inj this).symm
      rw [hcs] at hch
      obtain ⟨p, _, rfl⟩ := List.mem_map.mp hch
      exact ⟨rfl, rfl, p.1, p.2, rfl⟩
  · intro fp d file cs hparse hne
    have hsrp : ∀ (cs2 : List FileChange) (f : Option String),
        (srpGo f cs2).2.2 = cs2.foldl (fun f ch => (applyFileChangeM f ch).2) f := by
      intro cs2
      induction cs2 with
      | nil => intro f; rfl
      | cons ch rest ih =>
        intro f
        simp only [srpGo, List.foldl_cons]
        cases (applyFileChangeM f ch).1 with
        | none => exact ih _
        | some e => exact ih _
    unfold apply_search_replace_patch
    rw [hparse]
    cases cs with
    | nil => exact absurd rfl hne
    | cons ch rest => exact hsrp _ _


/-- Witness for C10: the single-block diff parses to one UPDATE change
with empty path and one chunk at index 0, and the top-level entry point
threads the disk content through the per-change fold. -/
theorem claim_C10_witness :
    (∀ ch ∈ [mkParsedChange (["a"], ["b"])], ch.action = .UPDATE ∧ ch.path = "" ∧
      ∃ sl rl, ch.chunks = [{ orig_index := 0, del_lines := sl, ins_lines := rl }]) ∧
    (apply_search_replace_patch "f.txt" (some "a")
        "<<<<<<< SEARCH\na\n=======\nb\n>>>>>>> REPLACE").2 =
      ([mkParsedChange (["a"], ["b"])].map (fun ch => { ch with path := "f.txt" })).foldl
        (fun f ch => (applyFileChangeM f ch).2) (some "a") :=
  ⟨claim_C10.1 "<<<<<<< SEARCH\na\n=======\nb\n>>>>>>> REPLACE"
      [mkParsedChange (["a"], ["b"])] (by decide),
   claim_C10.2 "f.txt" "<<<<<<< SEARCH\na\n=======\nb\n>>>>>>> REPLACE" (some "a")
      [mkParsedChange (["a"], ["b"])] (by decide) (by decide)⟩

/-! ### Parser lemmas -/

lemma srGo_search_collect (isStart : String → Bool) (s : List String)
    (hs : ∀ l ∈ s, pyStrip l ≠ "=======") :
    ∀ (acc rest : List String),
      srGo isStart (.search acc) (s ++ "=======" :: rest) =
        srGo isStart (.repl (acc ++ s) []) rest := by
  induction s with
  | nil =>
    intro acc rest
    rw [List.nil_append, srGo, if_pos (by decide : pyStrip "=======" = "======="),
      List.append_nil]
  | cons l ls ih =>
    intro acc rest
    rw [List.cons_append, srGo, if_neg (hs l (List.mem_cons_self _ _))]
    rw [ih (fun x hx => hs x (List.mem_cons_of_mem l hx)) (acc ++ [l]) rest]
    simp

lemma srGo_repl_collect (isStart : String → Bool) (r : List String)
    (hr : ∀ l ∈ r, pyStrip l ≠ ">>>>>>> REPLACE") :
    ∀ (sl acc rest : List String),
      srGo isStart (.repl sl acc) (r ++ ">>>>>>> REPLACE" :: rest) =
        (match srGo isStart .top rest with
         | .ok ps => .ok ((sl, acc ++ r) :: ps)
         | .error e => .error e) := by
  induction r with
  | nil =>
    intro sl acc rest
    rw [List.nil_append, srGo, if_pos (by decide : pyStrip ">>>>>>> REPLACE" = ">>>>>>> REPLACE"),
      List.append_nil]
  | cons l ls ih =>
    intro sl acc rest
    rw [List.cons_append, srGo, if_neg (hr l (List.mem_cons_self _ _))]
    rw [ih (fun x hx => hr x (List.mem_cons_of_mem l hx)) sl (acc ++ [l]) rest]
    simp

lemma srGo_search_missing (isStart : String → Bool) (s : List String)
    (hs : ∀ l ∈ s, pyStrip l ≠ "=======") :
    ∀ acc : List String, srGo isStart (.search acc) s = .error .missingSeparator := by
  induction s with
  | nil => intro acc; rfl
  | cons l ls ih =>
    intro acc
    rw [srGo, if_neg (hs l (List.mem_cons_self _ _))]
    exact ih (fun x hx => hs x (List.mem_cons_of_mem l hx)) _

lemma srGo_repl_missing (isStart : String → Bool) (r : List String)
    (hr : ∀ l ∈ r, pyStrip l ≠ ">>>>>>> REPLACE") :
    ∀ sl acc : List String, srGo isStart (.repl sl acc) r = .error .missingEnd := by
  induction r with
  | nil => intro sl acc; rfl
  | cons l ls ih =>
    intro sl acc
    rw [srGo, if_neg (hr l (List.mem_cons_self _ _))]
    exact ih (fun x hx => hr x (List.mem_cons_of_mem l hx)) _ _

/-- Scanning a sequence of well-formed blocks followed by any tail: the
blocks are collected in order and scanning continues on the tail. -/
lemma srGo_top_blocks (isStart : String → Bool)
    (hstart : isStart "<<<<<<< SEARCH" = true)
    (ps : List (List String × List String)) (hps : ∀ p ∈ ps, goodPair p) :
    ∀ tail : List String,
      srGo isStart .top (blocksLines ps ++ tail) =
        (match srGo isStart .top tail with
         | .ok qs => .ok (ps ++ qs)
         | .error e => .error e) := by
  induction ps with
  | nil =>
    intro tail
    rw [show blocksLines [] = [] from rfl, List.nil_append]
    cases h : srGo isStart .top tail <;> rfl
  | cons p ps ih =>
    intro tail
    have hgood := hps p (List.mem_cons_self _ _)
    have hblock : blocksLines (p :: ps) ++ tail =
        "<<<<<<< SEARCH" :: (p.1 ++ "=======" ::
          (p.2 ++ ">>>>>>> REPLACE" :: (blocksLines ps ++ tail))) := by
      show (blockLines p ++ blocksLines ps) ++ tail = _
      unfold blockLines
      simp [List.append_assoc]
    rw [hblock, srGo,
      if_pos (by rw [(by decide : pyStrip "<<<<<<< SEARCH" = "<<<<<<< SEARCH")]; exact hstart)]
    rw [srGo_search_collect isStart p.1 (fun l hl => (hgood.1 l hl).2) [] _]
    rw [srGo_repl_collect isStart p.2 (fun l hl => (hgood.2 l hl).2) _ [] _]
    rw [ih (fun q hq => hps q (List.mem_cons_of_mem p hq)) tail]
    cases h : srGo isStart .top tail with
    | ok qs => simp
    | error e => simp

/-- All lines of a sequence of well-formed blocks are newline-free. -/
lemma blocksLines_noNl (ps : List (List String × List String))
    (hps : ∀ p ∈ ps, goodPair p) : ∀ l ∈ blocksLines ps, noNl l := by
  induction ps with
  | nil => intro l hl; simp [blocksLines] at hl
  | cons p ps ih =>
    intro l hl
    have hgood := hps p (List.mem_cons_self _ _)
    have he : blocksLines (p :: ps) = blockLines p ++ blocksLines ps := rfl
    rw [he, List.mem_append] at hl
    rcases hl with h | h
    · unfold blockLines at h
      simp only [List.mem_cons, List.mem_append, List.mem_singleton] at h
      rcases h with ((h | h) | (h | h)) | (h | h)
      · rw [h]; decide
      · exact (hgood.1 l h).1
      · rw [h]; decide
      · exact (hgood.2 l h).1
      · rw [h]; decide
      · simp at h
    · exact ih (fun q hq => hps q (List.mem_cons_of_mem p hq)) l h


/-- Split-after-strip computes the exact line list of a canonical
(strip-neutral) joined text. -/
lemma stripSplit (L : List String) (hne : L ≠ []) (hnl : ∀ l ∈ L, noNl l)
    (hstrip : pyStrip (joinNl L) = joinNl L) :
    pySplitNl (pyStrip (joinNl L)) = L := by
  rw [hstrip]
  exact pySplitNl_joinNl L hne hnl

/-- Claim C5: parser symmetry and structural errors, for both the
advanced parser and the strict tool parser. A diff text consisting of k
well-formed blocks parses to exactly k edit requests in source order; a
text whose last block lacks its `=======` separator before end-of-input
fails with the missing-separator error; one whose last block has the
separator but lacks the `>>>>>>> REPLACE` end marker fails with the
distinct missing-end error; in the failure cases no edit request (for
that block or any earlier or later one) is returned. -/
theorem claim_C5 :
    (∀ ps : List (List String × List String), ps ≠ [] → (∀ p ∈ ps, goodPair p) →
      pyStrip (joinNl (blocksLines ps)) = joinNl (blocksLines ps) →
      parse_search_replace_block (joinNl (blocksLines ps)) = .ok (ps.map mkParsedChange) ∧
      parseBlocksStrict (joinNl (blocksLines ps)) =
        .ok (ps.map (fun p => (joinNl p.1, joinNl p.2)))) ∧
    (∀ (ps : List (List String × List String)) (s : List String),
      (∀ p ∈ ps, goodPair p) → (∀ l ∈ s, noNl l ∧ pyStrip l ≠ "=======") →
      pyStrip (joinNl (blocksLines ps ++ "<<<<<<< SEARCH" :: s)) =
        joinNl (blocksLines ps ++ "<<<<<<< SEARCH" :: s) →
      parse_search_replace_block (joinNl (blocksLines ps ++ "<<<<<<< SEARCH" :: s)) =
        .error .missingSeparator ∧
      parseBlocksStrict (joinNl (blocksLines ps ++ "<<<<<<< SEARCH" :: s)) =
        .error .missingSeparator) ∧
    (∀ (ps : List (List String × List String)) (s r : List String),
      (∀ p ∈ ps, goodPair p) → (∀ l ∈ s, noNl l ∧ pyStrip l ≠ "=======") →
      (∀ l ∈ r, noNl l ∧ pyStrip l ≠ ">>>>>>> REPLACE") →
      pyStrip (joinNl (blocksLines ps ++ "<<<<<<< SEARCH" :: (s ++ "=======" :: r))) =
        joinNl (blocksLines ps ++ "<<<<<<< SEARCH" :: (s ++ "=======" :: r)) →
      parse_search_replace_block
          (joinNl (blocksLines ps ++ "<<<<<<< SEARCH" :: (s ++ "=======" :: r))) =
        .error .missingEnd ∧
      parseBlocksStrict
          (joinNl (blocksLines ps ++ "<<<<<<< SEARCH" :: (s ++ "=======" :: r))) =
        .error .missingEnd) := by
  refine ⟨fun ps hne hgood hstrip => ?_, fun ps s hgood hs hstrip => ?_,
    fun ps s r hgood hs hr hstrip => ?_⟩
  · have hlines : pySplitNl (pyStrip (joinNl (blocksLines ps))) = blocksLines ps :=
      stripSplit _ (by
        cases ps with
        | nil => exact absurd rfl hne
        | cons p ps =>
          show blockLines p ++ blocksLines ps ≠ []
          simp [blockLines])
        (blocksLines_noNl ps hgood) hstrip
    have hadv := srGo_top_blocks advStart (by decide) ps hgood []
    have hstrict := srGo_top_blocks strictStart (by decide) ps hgood []
    rw [List.append_nil] at hadv hstrict
    constructor
    · unfold parse_search_replace_block
      rw [hlines, hadv]
      rw [show srGo advStart PMode.top [] = .ok [] from rfl]
      simp [Except.map]
    · unfold parseBlocksStrict
      rw [hlines, hstrict]
      rw [show srGo strictStart PMode.top [] = .ok [] from rfl]
      simp [Except.map]
  · have hnl : ∀ l ∈ blocksLines ps ++ "<<<<<<< SEARCH" :: s, noNl l := by
      intro l hl
      rw [List.mem_append] at hl
      rcases hl with h | h
      · exact blocksLines_noNl ps hgood l h
      · rcases List.mem_cons.mp h with h | h
        · rw [h]; decide
        · exact (hs l h).1
    have hlines := stripSplit _ (by simp) hnl hstrip
    have htail : ∀ isStart : String → Bool, isStart "<<<<<<< SEARCH" = true →
        srGo isStart .top ("<<<<<<< SEARCH" :: s) = .error .missingSeparator := by
      intro isStart hstart
      rw [srGo, if_pos (by rw [(by decide : pyStrip "<<<<<<< SEARCH" = "<<<<<<< SEARCH")]; exact hstart)]
      exact srGo_search_missing isStart s (fun l hl => (hs l hl).2) []
    constructor
    · unfold parse_search_replace_block
      rw [hlines, srGo_top_blocks advStart (by decide) ps hgood _, htail advStart (by decide)]
      rfl
    · unfold parseBlocksStrict
      rw [hlines, srGo_top_blocks strictStart (by decide) ps hgood _, htail strictStart (by decide)]
      rfl
  · have hnl : ∀ l ∈ blocksLines ps ++ "<<<<<<< SEARCH" :: (s ++ "=======" :: r), noNl l := by
      intro l hl
      rw [List.mem_append] at hl
      rcases hl with h | h
      · exact blocksLines_noNl ps hgood l h
      · rcases List.mem_cons.mp h with h | h
        · rw [h]; decide
        · rw [List.mem_append] at h
          rcases h with h | h
          · exact (hs l h).1
          · rcases List.mem_cons.mp h with h | h
            · rw [h]; decide
            · exact (hr l h).1
    have hlines := stripSplit _ (by simp) hnl hstrip
    have htail : ∀ isStart : String → Bool, isStart "<<<<<<< SEARCH" = true →
        srGo isStart .top ("<<<<<<< SEARCH" :: (s ++ "=======" :: r)) = .error .missingEnd := by
      intro isStart hstart
      rw [srGo, if_pos (by rw [(by decide : pyStrip "<<<<<<< SEARCH" = "<<<<<<< SEARCH")]; exact hstart)]
      rw [srGo_search_collect isStart s (fun l hl => (hs l hl).2) [] r]
      exact srGo_repl_missing isStart r (fun l hl => (hr l hl).2) _ _
    constructor
    · unfold parse_search_replace_block
      rw [hlines, srGo_top_blocks advStart (by decide) ps hgood _, htail advStart (by decide)]
      rfl
    · unfold parseBlocksStrict
      rw [hlines, srGo_top_blocks strictStart (by decide) ps hgood _, htail strictStart (by decide)]
      rfl

/-- Witness for C5: a two-block text parses to exactly those two edit
requests in order in both parsers; a text whose block lacks the
separator fails with the missing-separator error; one lacking the end
marker fails with the distinct missing-end error. -/
theorem claim_C5_witness :
    (parse_search_replace_block (joinNl (blocksLines [(["a"], ["b"]), (["c"], ["d"])])) =
        .ok ([(["a"], ["b"]), (["c"], ["d"])].map mkParsedChange) ∧
      parseBlocksStrict (joinNl (blocksLines [(["a"], ["b"]), (["c"], ["d"])])) =
        .ok ([(["a"], ["b"]), (["c"], ["d"])].map (fun p => (joinNl p.1, joinNl p.2)))) ∧
    (parse_search_replace_block (joinNl (blocksLines [] ++ "<<<<<<< SEARCH" :: ["a"])) =
        .error .missingSeparator ∧
      parseBlocksStrict (joinNl (blocksLines [] ++ "<<<<<<< SEARCH" :: ["a"])) =
        .error .missingSeparator) ∧
    (parse_search_replace_block
          (joinNl (blocksLines [] ++ "<<<<<<< SEARCH" :: (["a"] ++ "=======" :: ["b"]))) =
        .error .missingEnd ∧
      parseBlocksStrict
          (joinNl (blocksLines [] ++ "<<<<<<< SEARCH" :: (["a"] ++ "=======" :: ["b"]))) =
        .error .missingEnd) :=
  ⟨claim_C5.1 [(["a"], ["b"]), (["c"], ["d"])] (by decide) (by decide) (by decide),
   claim_C5.2.1 [] ["a"] (by decide) (by decide) (by decide),
   claim_C5.2.2 [] ["a"] ["b"] (by decide) (by decide) (by decide) (by decide)⟩


/-! ### Strip-neutrality of canonical joined texts -/

lemma joinNlCh_head? (x : List Char) (xs : List (List Char)) (hx : x ≠ []) :
    (joinNlCh (x :: xs)).head? = x.head? := by
  cases xs with
  | nil => rfl
  | cons y ys =>
    rw [joinNlCh_cons2]
    cases x with
    | nil => exact absurd rfl hx
    | cons a t => rfl

lemma joinNlCh_getLast? : ∀ (xs : List (List Char)) (y : List Char), y ≠ [] →
    (joinNlCh (xs ++ [y])).getLast? = y.getLast? := by
  intro xs
  induction xs with
  | nil => intro y hy; rfl
  | cons x xs ih =>
    intro y hy
    obtain ⟨z, zs, hz⟩ : ∃ z zs, xs ++ [y] = z :: zs := by
      cases xs with
      | nil => exact ⟨y, [], rfl⟩
      | cons a l => exact ⟨a, l ++ [y], rfl⟩
    rw [List.cons_append, hz, joinNlCh_cons2, ← hz]
    have hJ : joinNlCh (xs ++ [y]) ≠ [] := by
      intro h0
      have := ih y hy
      rw [h0] at this
      have h2 : y.getLast? = none := this.symm
      exact hy (List.getLast?_eq_none_iff.mp h2)
    rw [List.getLast?_append]
    have h1 : ('\n' :: joinNlCh (xs ++ [y])).getLast? = y.getLast? := by
      rw [show ('\n' :: joinNlCh (xs ++ [y])) = ['\n'] ++ joinNlCh (xs ++ [y]) from rfl,
        List.getLast?_append, ih y hy]
      obtain ⟨c, hc⟩ := Option.isSome_iff_exists.mp (List.getLast?_isSome.mpr hy)
      rw [show y.getLast? = some c from hc]
      rfl
    rw [h1]
    obtain ⟨c, hc⟩ := Option.isSome_iff_exists.mp (List.getLast?_isSome.mpr hy)
    rw [show y.getLast? = some c from hc]
    rfl

/-- A joined line list whose first line starts with a non-space character
and whose last line ends with one is unchanged by `strip()`. -/
lemma pyStrip_joinNl_fix (l0 : String) (mid : List String) (lN : String)
    (h0 : ∀ c, l0.data.head? = some c → isPySpace c = false) (h0ne : l0.data ≠ [])
    (hN : ∀ c, lN.data.getLast? = some c → isPySpace c = false) (hNne : lN.data ≠ []) :
    pyStrip (joinNl (l0 :: (mid ++ [lN]))) = joinNl (l0 :: (mid ++ [lN])) := by
  apply pyStrip_eq_self
  · intro c hc
    have he : (joinNl (l0 :: (mid ++ [lN]))).data =
        joinNlCh (l0.data :: ((mid.map String.data) ++ [lN.data])) := by
      rw [joinNl_data]
      simp
    rw [he, joinNlCh_head? _ _ h0ne] at hc
    exact h0 c hc
  · intro c hc
    have he : (joinNl (l0 :: (mid ++ [lN]))).data =
        joinNlCh ((l0.data :: mid.map String.data) ++ [lN.data]) := by
      rw [joinNl_data]
      simp
    rw [he, joinNlCh_getLast? _ _ hNne] at hc
    exact hN c hc


/-- Claim C6 (amended): marker exactness. The separator and end markers
are matched by exact equality (after trimming) in both parsers, and the
strict tool also matches the start marker exactly: a line carrying a
stray non-space character after `=======` or `>>>>>>> REPLACE` is
treated as ordinary block content, and a line carrying a stray character
after `<<<<<<< SEARCH` is ignored by the strict parser when outside a
block. The advanced parser, however, recognises a start marker by
`startswith`, so a stray suffix on `<<<<<<< SEARCH` is tolerated there
(see the counterexample). -/
theorem claim_C6 (c : Char) (hc : isPySpace c = false) :
    parseBlocksStrict
        (joinNl ["<<<<<<< SEARCH".push c, "a", "=======", "b", ">>>>>>> REPLACE"]) = .ok [] ∧
    (parse_search_replace_block
        (joinNl ["<<<<<<< SEARCH", "=======".push c, "=======", "b", ">>>>>>> REPLACE"]) =
      .ok [mkParsedChange (["=======".push c], ["b"])] ∧
     parseBlocksStrict
        (joinNl ["<<<<<<< SEARCH", "=======".push c, "=======", "b", ">>>>>>> REPLACE"]) =
      .ok [("=======".push c, joinNl ["b"])]) ∧
    (parse_search_replace_block
        (joinNl ["<<<<<<< SEARCH", "a", "=======", ">>>>>>> REPLACE".push c, ">>>>>>> REPLACE"]) =
      .ok [mkParsedChange (["a"], [">>>>>>> REPLACE".push c])] ∧
     parseBlocksStrict
        (joinNl ["<<<<<<< SEARCH", "a", "=======", ">>>>>>> REPLACE".push c, ">>>>>>> REPLACE"]) =
      .ok [(joinNl ["a"], ">>>>>>> REPLACE".push c)]) := by
  have hcn : ('\n' : Char) ≠ c := by
    intro h
    rw [← h] at hc
    exact absurd hc (by decide)
  have hnlPush : ∀ s : String, ¬ ('\n' ∈ s.data) → noNl (s.push c) := by
    intro s hs
    unfold noNl
    rw [show (s.push c).data = s.data ++ [c] from rfl, List.mem_append]
    rintro (h | h)
    · exact hs h
    · exact hcn (List.mem_singleton.mp h)
  have hstripPush : ∀ s : String, s.data ≠ [] →
      (∀ d, s.data.head? = some d → isPySpace d = false) →
      pyStrip (s.push c) = s.push c := by
    intro s hne hh
    apply pyStrip_eq_self
    · intro d hd
      rw [show (s.push c).data = s.data ++ [c] from rfl] at hd
      cases hsd : s.data with
      | nil => exact absurd hsd hne
      | cons a t =>
        rw [hsd, List.cons_append, List.head?_cons] at hd
        exact hh d (by rw [hsd]; exact hd)
    · intro d hd
      rw [show (s.push c).data = s.data ++ [c] from rfl, List.getLast?_concat] at hd
      rw [← Option.some.inj hd]
      exact hc
  have hlenNe : ∀ s : String, s.push c ≠ s := by
    intro s h
    have h2 : (s.data ++ [c]).length = s.data.length := congrArg (fun t => t.data.length) h
    simp at h2
  have hgoodSep : goodPair ([("=======".push c : String)], (["b"] : List String)) := by
    constructor
    · intro l hl
      rw [List.mem_singleton] at hl
      subst hl
      refine ⟨hnlPush _ (by decide), ?_⟩
      rw [hstripPush "=======" (by decide) (by decide)]
      exact hlenNe "======="
    · intro l hl
      rw [List.mem_singleton] at hl
      subst hl
      exact ⟨by decide, by decide⟩
  have hgoodEnd : goodPair ((["a"] : List String), [(">>>>>>> REPLACE".push c : String)]) := by
    constructor
    · intro l hl
      rw [List.mem_singleton] at hl
      subst hl
      exact ⟨by decide, by decide⟩
    · intro l hl
      rw [List.mem_singleton] at hl
      subst hl
      refine ⟨hnlPush _ (by decide), ?_⟩
      rw [hstripPush ">>>>>>> REPLACE" (by decide) (by decide)]
      exact hlenNe ">>>>>>> REPLACE"
  refine ⟨?_, ⟨?_, ?_⟩, ⟨?_, ?_⟩⟩
  · have hnlL : ∀ l ∈ ["<<<<<<< SEARCH".push c, "a", "=======", "b", ">>>>>>> REPLACE"],
        noNl l := by
      intro l hl
      simp only [List.mem_cons] at hl
      rcases hl with h | h | h | h | h | h
      · rw [h]; exact hnlPush _ (by decide)
      · rw [h]; decide
      · rw [h]; decide
      · rw [h]; decide
      · rw [h]; decide
      · simp at h
    have hstripL : pyStrip
        (joinNl ["<<<<<<< SEARCH".push c, "a", "=======", "b", ">>>>>>> REPLACE"]) =
        joinNl ["<<<<<<< SEARCH".push c, "a", "=======", "b", ">>>>>>> REPLACE"] := by
      have := pyStrip_joinNl_fix ("<<<<<<< SEARCH".push c) ["a", "=======", "b"]
        ">>>>>>> REPLACE"
        (by
          intro d hd
          have hdd : some '<' = some d := hd
          rw [← Option.some.inj hdd]
          decide)
        (by rw [show ("<<<<<<< SEARCH".push c).data = "<<<<<<< SEARCH".data ++ [c] from rfl]; simp)
        (by intro d hd; rw [← Option.some.inj hd]; decide)
        (by decide)
      simpa using this
    have hlines := stripSplit _ (by simp) hnlL hstripL
    unfold parseBlocksStrict
    rw [hlines, srGo, hstripPush "<<<<<<< SEARCH" (by decide) (by decide),
      if_neg (by
        rw [show strictStart ("<<<<<<< SEARCH".push c) = false from by
          simp only [strictStart, decide_eq_false_iff_not]
          exact hlenNe "<<<<<<< SEARCH"]
        exact Bool.false_ne_true)]
    decide
  · have hnlL : ∀ l ∈ ["<<<<<<< SEARCH", "=======".push c, "=======", "b", ">>>>>>> REPLACE"],
        noNl l := by
      intro l hl
      simp only [List.mem_cons] at hl
      rcases hl with h | h | h | h | h | h
      · rw [h]; decide
      · rw [h]; exact hnlPush _ (by decide)
      · rw [h]; decide
      · rw [h]; decide
      · rw [h]; decide
      · simp at h
    have hstripL : pyStrip
        (joinNl ["<<<<<<< SEARCH", "=======".push c, "=======", "b", ">>>>>>> REPLACE"]) =
        joinNl ["<<<<<<< SEARCH", "=======".push c, "=======", "b", ">>>>>>> REPLACE"] := by
      have := pyStrip_joinNl_fix "<<<<<<< SEARCH" ["=======".push c, "=======", "b"]
        ">>>>>>> REPLACE"
        (by intro d hd; rw [← Option.some.inj hd]; decide) (by decide)
        (by intro d hd; rw [← Option.some.inj hd]; decide) (by decide)
      simpa using this
    have hlines := stripSplit _ (by simp) hnlL hstripL
    unfold parse_search_replace_block
    rw [hlines]
    rw [show (["<<<<<<< SEARCH", "=======".push c, "=======", "b", ">>>>>>> REPLACE"] : List String) =
      blocksLines [([("=======".push c : String)], (["b"] : List String))] ++ [] from rfl]
    rw [srGo_top_blocks advStart (by decide) _ (by
      intro p hp
      rw [List.mem_singleton] at hp
      subst hp
      exact hgoodSep) []]
    rw [show srGo advStart PMode.top [] = .ok [] from rfl]
    simp [Except.map, mkParsedChange]
  · have hnlL : ∀ l ∈ ["<<<<<<< SEARCH", "=======".push c, "=======", "b", ">>>>>>> REPLACE"],
        noNl l := by
      intro l hl
      simp only [List.mem_cons] at hl
      rcases hl with h | h | h | h | h | h
      · rw [h]; decide
      · rw [h]; exact hnlPush _ (by decide)
      · rw [h]; decide
      · rw [h]; decide
      · rw [h]; decide
      · simp at h
    have hstripL : pyStrip
        (joinNl ["<<<<<<< SEARCH", "=======".push c, "=======", "b", ">>>>>>> REPLACE"]) =
        joinNl ["<<<<<<< SEARCH", "=======".push c, "=======", "b", ">>>>>>> REPLACE"] := by
      have := pyStrip_joinNl_fix "<<<<<<< SEARCH" ["=======".push c, "=======", "b"]
        ">>>>>>> REPLACE"
        (by intro d hd; rw [← Option.some.inj hd]; decide) (by decide)
        (by intro d hd; rw [← Option.some.inj hd]; decide) (by decide)
      simpa using this
    have hlines := stripSplit _ (by simp) hnlL hstripL
    unfold parseBlocksStrict
    rw [hlines]
    rw [show (["<<<<<<< SEARCH", "=======".push c, "=======", "b", ">>>>>>> REPLACE"] : List String) =
      blocksLines [([("=======".push c : String)], (["b"] : List String))] ++ [] from rfl]
    rw [srGo_top_blocks strictStart (by decide) _ (by
      intro p hp
      rw [List.mem_singleton] at hp
      subst hp
      exact hgoodSep) []]
    rw [show srGo strictStart PMode.top [] = .ok [] from rfl]
    simp [Except.map]
    exact strMkData _
  · have hnlL : ∀ l ∈ ["<<<<<<< SEARCH", "a", "=======", ">>>>>>> REPLACE".push c, ">>>>>>> REPLACE"],
        noNl l := by
      intro l hl
      simp only [List.mem_cons] at hl
      rcases hl with h | h | h | h | h | h
      · rw [h]; decide
      · rw [h]; decide
      · rw [h]; decide
      · rw [h]; exact hnlPush _ (by decide)
      · rw [h]; decide
      · simp at h
    have hstripL : pyStrip
        (joinNl ["<<<<<<< SEARCH", "a", "=======", ">>>>>>> REPLACE".push c, ">>>>>>> REPLACE"]) =
        joinNl ["<<<<<<< SEARCH", "a", "=======", ">>>>>>> REPLACE".push c, ">>>>>>> REPLACE"] := by
      have := pyStrip_joinNl_fix "<<<<<<< SEARCH" ["a", "=======", ">>>>>>> REPLACE".push c]
        ">>>>>>> REPLACE"
        (by intro d hd; rw [← Option.some.inj hd]; decide) (by decide)
        (by intro d hd; rw [← Option.some.inj hd]; decide) (by decide)
      simpa using this
    have hlines := stripSplit _ (by simp) hnlL hstripL
    unfold parse_search_replace_block
    rw [hlines]
    rw [show (["<<<<<<< SEARCH", "a", "=======", ">>>>>>> REPLACE".push c, ">>>>>>> REPLACE"] : List String) =
      blocksLines [((["a"] : List String), [(">>>>>>> REPLACE".push c : String)])] ++ [] from rfl]
    rw [srGo_top_blocks advStart (by decide) _ (by
      intro p hp
      rw [List.mem_singleton] at hp
      subst hp
      exact hgoodEnd) []]
    rw [show srGo advStart PMode.top [] = .ok [] from rfl]
    simp [Except.map, mkParsedChange]
  · have hnlL : ∀ l ∈ ["<<<<<<< SEARCH", "a", "=======", ">>>>>>> REPLACE".push c, ">>>>>>> REPLACE"],
        noNl l := by
      intro l hl
      simp only [List.mem_cons] at hl
      rcases hl with h | h | h | h | h | h
      · rw [h]; decide
      · rw [h]; decide
      · rw [h]; decide
      · rw [h]; exact hnlPush _ (by decide)
      · rw [h]; decide
      · simp at h
    have hstripL : pyStrip
        (joinNl ["<<<<<<< SEARCH", "a", "=======", ">>>>>>> REPLACE".push c, ">>>>>>> REPLACE"]) =
        joinNl ["<<<<<<< SEARCH", "a", "=======", ">>>>>>> REPLACE".push c, ">>>>>>> REPLACE"] := by
      have := pyStrip_joinNl_fix "<<<<<<< SEARCH" ["a", "=======", ">>>>>>> REPLACE".push c]
        ">>>>>>> REPLACE"
        (by intro d hd; rw [← Option.some.inj hd]; decide) (by decide)
        (by intro d hd; rw [← Option.some.inj hd]; decide) (by decide)
      simpa using this
    have hlines := stripSplit _ (by simp) hnlL hstripL
    unfold parseBlocksStrict
    rw [hlines]
    rw [show (["<<<<<<< SEARCH", "a", "=======", ">>>>>>> REPLACE".push c, ">>>>>>> REPLACE"] : List String) =
      blocksLines [((["a"] : List String), [(">>>>>>> REPLACE".push c : String)])] ++ [] from rfl]
    rw [srGo_top_blocks strictStart (by decide) _ (by
      intro p hp
      rw [List.mem_singleton] at hp
      subst hp
      exact hgoodEnd) []]
    rw [show srGo strictStart PMode.top [] = .ok [] from rfl]
    simp [Except.map]
    exact strMkData _

/-- Counterexample to C6 as stated: the advanced parser recognises
`<<<<<<< SEARCHx` (a start marker with a stray trailing character) as a
start marker via `startswith`, parsing one block where the claim
requires the line to be ignored and hence no block to be found. -/
theorem claim_C6_counterexample :
    parse_search_replace_block "<<<<<<< SEARCHx\na\n=======\nb\n>>>>>>> REPLACE" =
      .ok [mkParsedChange (["a"], ["b"])] ∧
    (Except.ok [mkParsedChange (["a"], ["b"])] : Except ParseErr (List FileChange)) ≠
      .ok [] := by decide

/-- Witness for C6 (amended), at the stray character `x`. -/
theorem claim_C6_witness :
    parseBlocksStrict
        (joinNl ["<<<<<<< SEARCH".push 'x', "a", "=======", "b", ">>>>>>> REPLACE"]) = .ok [] ∧
    (parse_search_replace_block
        (joinNl ["<<<<<<< SEARCH", "=======".push 'x', "=======", "b", ">>>>>>> REPLACE"]) =
      .ok [mkParsedChange (["=======".push 'x'], ["b"])] ∧
     parseBlocksStrict
        (joinNl ["<<<<<<< SEARCH", "=======".push 'x', "=======", "b", ">>>>>>> REPLACE"]) =
      .ok [("=======".push 'x', joinNl ["b"])]) ∧
    (parse_search_replace_block
        (joinNl ["<<<<<<< SEARCH", "a", "=======", ">>>>>>> REPLACE".push 'x', ">>>>>>> REPLACE"]) =
      .ok [mkParsedChange (["a"], [">>>>>>> REPLACE".push 'x'])] ∧
     parseBlocksStrict
        (joinNl ["<<<<<<< SEARCH", "a", "=======", ">>>>>>> REPLACE".push 'x', ">>>>>>> REPLACE"]) =
      .ok [(joinNl ["a"], ">>>>>>> REPLACE".push 'x')]) :=
  claim_C6 'x' (by decide)


/-! ### Strict replacement lemmas -/

lemma beginsWith_iff : ∀ (p l : List Char), beginsWith p l = true ↔ ∃ q, l = p ++ q := by
  intro p
  induction p with
  | nil =>
    intro l
    simp [beginsWith]
  | cons a ps ih =>
    intro l
    cases l with
    | nil =>
      rw [beginsWith]
      constructor
      · intro h; cases h
      · rintro ⟨q, hq⟩; cases hq
    | cons b cs =>
      rw [beginsWith]
      simp only [Bool.and_eq_true, decide_eq_true_eq, ih]
      constructor
      · rintro ⟨rfl, q, rfl⟩
        exact ⟨q, rfl⟩
      · rintro ⟨q, hq⟩
        rw [List.cons_append] at hq
        obtain ⟨h1, h2⟩ := List.cons.inj hq
        exact ⟨h1.symm, q, h2⟩

/-- `hay.replace(old, new, 1)` replaces exactly the leftmost occurrence
of `old`. -/
lemma replFirstCh_spec : ∀ (hay old new : List Char), hasSubCh hay old = true →
    ∃ p q, hay = p ++ old ++ q ∧ replFirstCh hay old new = p ++ new ++ q ∧
      ∀ p2 q2, hay = p2 ++ old ++ q2 → p.length ≤ p2.length := by
  intro hay
  induction hay with
  | nil =>
    intro old new h
    rw [hasSubCh, Bool.or_eq_true] at h
    have hb : beginsWith old [] = true := by
      rcases h with h | h
      · exact h
      · cases h
    obtain ⟨q, hq⟩ := (beginsWith_iff old []).mp hb
    have hold : old = [] := by
      cases old with
      | nil => rfl
      | cons x xs => cases hq
    subst hold
    refine ⟨[], [], by simp, ?_, fun p2 q2 _ => Nat.zero_le _⟩
    unfold replFirstCh
    rw [if_pos hb]
    simp
  | cons a t ih =>
    intro old new h
    by_cases hb : beginsWith old (a :: t) = true
    · obtain ⟨q, hq⟩ := (beginsWith_iff old (a :: t)).mp hb
      refine ⟨[], q, by simp [hq], ?_, fun p2 q2 _ => Nat.zero_le _⟩
      unfold replFirstCh
      rw [if_pos hb, hq, List.nil_append]
      rw [List.drop_left]
    · have hsub : hasSubCh t old = true := by
        rw [hasSubCh, Bool.or_eq_true] at h
        rcases h with h | h
        · exact absurd h hb
        · exact h
      obtain ⟨p, q, hdec, hrepl, hmin⟩ := ih old new hsub
      refine ⟨a :: p, q, by rw [List.cons_append, List.cons_append, ← hdec], ?_, ?_⟩
      · unfold replFirstCh
        rw [if_neg hb]
        rw [show (match (a :: t : List Char) with
            | [] => ([] : List Char)
            | h :: t2 => h :: replFirstCh t2 old new) = a :: replFirstCh t old new from rfl]
        rw [hrepl, List.cons_append, List.cons_append]
      · intro p2 q2 h2
        cases p2 with
        | nil =>
          exfalso
          rw [List.nil_append] at h2
          exact hb ((beginsWith_iff old (a :: t)).mpr ⟨q2, h2⟩)
        | cons a2 p2t =>
          rw [List.cons_append, List.cons_append] at h2
          obtain ⟨_, h4⟩ := List.cons.inj h2
          rw [List.length_cons, List.length_cons]
          exact Nat.succ_le_succ (hmin p2t q2 (by rw [h4, List.append_assoc]) )

/-- Claim C8: strict fallback semantics. Each block requires its search
text to occur verbatim as a substring of the current whole-file text;
only the leftmost occurrence is replaced; blocks apply sequentially so
each successful replacement is part of the text the next block searches
(the fold composes over list append); and a missing search text fails
the whole edit immediately, leaving the file content unchanged. -/
theorem claim_C8 :
    (∀ content s r : String, hasSubStr content s = true →
      ∃ p q : List Char, content.data = p ++ s.data ++ q ∧
        (replFirstStr content s r).data = p ++ r.data ++ q ∧
        ∀ p2 q2 : List Char, content.data = p2 ++ s.data ++ q2 → p.length ≤ p2.length) ∧
    (∀ (content s r : String) (bs : List (String × String)), hasSubStr content s = false →
      applyBlocksStrict content ((s, r) :: bs) = .error (.notFound s)) ∧
    (∀ (content : String) (bs1 bs2 : List (String × String)),
      applyBlocksStrict content (bs1 ++ bs2) =
        (match applyBlocksStrict content bs1 with
         | .ok v1 =>
           (match applyBlocksStrict v1.1 bs2 with
            | .ok v2 => .ok (v2.1, v1.2 + v2.2)
            | .error e => .error e)
         | .error e => .error e)) ∧
    (∀ (file : Option String) (d : String) (e : ReplaceErr) (f2 : Option String),
      replace_in_file file d = (.error e, f2) → f2 = file) := by
  refine ⟨fun content s r h => ?_, fun content s r bs h => ?_, fun content bs1 bs2 => ?_,
    fun file d e f2 h => ?_⟩
  · exact replFirstCh_spec content.data s.data r.data h
  · rw [applyBlocksStrict, if_neg (by rw [h]; exact Bool.false_ne_true)]
  · induction bs1 generalizing content with
    | nil =>
      rw [List.nil_append]
      show applyBlocksStrict content bs2 =
        (match applyBlocksStrict content bs2 with
         | .ok v2 => Except.ok (v2.1, 0 + v2.2)
         | .error e => .error e)
      cases h2 : applyBlocksStrict content bs2 with
      | ok v =>
        show Except.ok v = Except.ok (v.1, 0 + v.2)
        rw [Nat.zero_add]
      | error e => rfl
    | cons b bs1t ih =>
      rw [List.cons_append, applyBlocksStrict, applyBlocksStrict]
      by_cases hsub : hasSubStr content b.1 = true
      · rw [if_pos hsub, if_pos hsub, ih (replFirstStr content b.1 b.2)]
        cases h1 : applyBlocksStrict (replFirstStr content b.1 b.2) bs1t with
        | ok v1 =>
          show (match (match applyBlocksStrict v1.1 bs2 with
              | .ok v2 => Except.ok (ε := ReplaceErr) (v2.1, v1.2 + v2.2)
              | .error e => .error e) with
            | .ok v => Except.ok (ε := ReplaceErr) (v.1, v.2 + 1)
            | .error e => .error e) =
            (match applyBlocksStrict v1.1 bs2 with
            | .ok v2 => Except.ok (ε := ReplaceErr) (v2.1, v1.2 + 1 + v2.2)
            | .error e => .error e)
          cases h2 : applyBlocksStrict v1.1 bs2 with
          | ok v2 =>
            show Except.ok (v2.1, v1.2 + v2.2 + 1) = Except.ok (v2.1, v1.2 + 1 + v2.2)
            rw [show v1.2 + v2.2 + 1 = v1.2 + 1 + v2.2 by omega]
          | error er => rfl
        | error er => rfl
      · rw [if_neg hsub, if_neg hsub]
  · cases file with
    | none => exact (congrArg Prod.snd h).symm
    | some content =>
      have h2 : (match parseBlocksStrict d with
          | .error e2 => (Except.error (ReplaceErr.malformed e2), some content)
          | .ok [] => (.error .noBlocks, some content)
          | .ok blocks =>
            (match applyBlocksStrict content blocks with
             | .ok v => (.ok v.2, some v.1)
             | .error e2 => (.error e2, some content))) = (.error e, f2) := h
      cases hp : parseBlocksStrict d with
      | error e2 =>
        rw [hp] at h2
        exact (congrArg Prod.snd h2).symm
      | ok blocks =>
        rw [hp] at h2
        cases blocks with
        | nil => exact (congrArg Prod.snd h2).symm
        | cons b bst =>
          have h3 : (match applyBlocksStrict content (b :: bst) with
              | .ok v => (Except.ok v.2, some v.1)
              | .error e2 => (Except.error (α := Nat) e2, some content)) =
              (.error e, f2) := h2
          cases ha : applyBlocksStrict content (b :: bst) with
          | ok v =>
            rw [ha] at h3
            exact absurd (congrArg Prod.fst h3) (by simp)
          | error e2 =>
            rw [ha] at h3
            exact (congrArg Prod.snd h3).symm

/-- Witness for C8: a first-occurrence replacement, an immediate
not-found failure, sequential composition over two blocks where the
second search text only exists after the first replacement, and an
unchanged file on failure. -/
theorem claim_C8_witness :
    (∃ p q : List Char, ("aXbXc" : String).data = p ++ ("X" : String).data ++ q ∧
      (replFirstStr "aXbXc" "X" "YY").data = p ++ ("YY" : String).data ++ q ∧
      ∀ p2 q2 : List Char, ("aXbXc" : String).data = p2 ++ ("X" : String).data ++ q2 →
        p.length ≤ p2.length) ∧
    applyBlocksStrict "ab" [("zz", "q")] = .error (.notFound "zz") ∧
    applyBlocksStrict "xy" ([("x", "1")] ++ [("1y", "2")]) =
      (match applyBlocksStrict "xy" [("x", "1")] with
       | .ok v1 =>
         (match applyBlocksStrict v1.1 [("1y", "2")] with
          | .ok v2 => .ok (v2.1, v1.2 + v2.2)
          | .error e => .error e)
       | .error e => .error e) ∧
    (some "ab" : Option String) = some "ab" :=
  ⟨claim_C8.1 "aXbXc" "X" "YY" (by decide),
   claim_C8.2.1 "ab" "zz" "q" [] (by decide),
   claim_C8.2.2.1 "xy" [("x", "1")] [("1y", "2")],
   claim_C8.2.2.2 (some "ab") "<<<<<<< SEARCH\nzz\n=======\nq\n>>>>>>> REPLACE"
     (.notFound "zz") (some "ab") (by decide)⟩

end Clicode
